import Mathlib

set_option maxRecDepth 100000

/-!
Verification development for the CompiLinda compiler (TypeScript sources under
`src/`).  The definitions below are shallow embeddings of the functions of
`src/src/codeGeneration.ts`, `src/src/combinedAnalyzer.ts` and
`src/src/main.ts`, translated function by function; machine integers are
modelled as `Nat` (with explicit `% 256` where the source masks with `& 0xFF`),
JavaScript exceptions as `Except`, and mutable class state as explicit state
records threaded through the functions.
-/

/-! ## Generic helpers for JavaScript semantics -/

/-- JavaScript `a || b` on numbers: `a` unless it is falsy (`0`), else `b`. -/
def jsOr (a b : Nat) : Nat := if a = 0 then b else a

/-- JavaScript `a || b` on strings: `a` unless it is falsy (`""`), else `b`. -/
def jsOrS (a b : String) : String := if a = "" then b else a

/-- `chPre n h` : the character list `n` is a prefix of `h`. -/
def chPre : List Char → List Char → Bool
  | [], _ => true
  | _ :: _, [] => false
  | a :: as, b :: bs => a == b && chPre as bs

/-- `chSub n h` : the character list `n` occurs contiguously inside `h`. -/
def chSub (needle : List Char) : List Char → Bool
  | [] => chPre needle []
  | s@(_ :: rest) => chPre needle s || chSub needle rest

/-- JavaScript `msg.includes(name)` : substring test on strings. -/
def strIncludes (msg name : String) : Bool := chSub name.toList msg.toList

/-! ## AST nodes

The runtime AST objects produced by `ASTAdapter` (combinedAnalyzer.ts) and
consumed by `SemanticAnalyzer` and `CodeGenerator` are JavaScript objects with
a `type` tag and per-type fields.  We embed them as a mutual inductive family:
one constructor per `NodeType`, carrying exactly the fields the adapter writes
and the analyzer / code generator read.  `WhileStatement` nodes additionally
carry the *optional* `children` field, because the code generator reads
`node.children` on them while the adapter never sets it (claim C2); fields the
adapter always sets are embedded non-optionally.  The auxiliary types `ANs`,
`ANOpt`, `ANsOpt` replace `List`/`Option` so that all recursion over the
family is plainly structural. -/

mutual

inductive AN : Type where
  | program (line column : Nat) (children : ANs)
  | blockN (line column : Nat) (children : ANs)
  | varDecl (line column : Nat) (children : ANs) (varType varName : String)
  | assignS (line column : Nat) (identifier expression : AN)
  | printS (line column : Nat) (expression : AN)
  | whileS (line column : Nat) (condition body : AN) (children : ANsOpt)
  | ifS (line column : Nat) (condition thenBranch : AN) (elseBranch : ANOpt)
  | binExpr (line column : Nat) (operator : String) (left right : AN)
  | identN (line column : Nat) (name : String)
  | intLit (line column : Nat) (value : Nat)
  | strLit (line column : Nat) (value : String)
  | boolLit (line column : Nat) (value : Bool)

inductive ANs : Type where
  | nil
  | cons (head : AN) (tail : ANs)

inductive ANOpt : Type where
  | none
  | some (a : AN)

inductive ANsOpt : Type where
  | none
  | some (l : ANs)

end

/-- The JavaScript property read `node.name`: only `Identifier` nodes carry a
`name` (the adapter sets `name` exactly on the nodes it builds with
`type: NodeType.Identifier`). -/
def AN.nameF : AN → Option String
  | .identN _ _ n => some n
  | _ => none

/-- Membership in an `ANs` list. -/
def ANs.Mem (a : AN) : ANs → Prop
  | .nil => False
  | .cons h t => a = h ∨ ANs.Mem a t

mutual

/-- Does the AST contain a `WhileStatement` node anywhere? -/
def containsWhile : AN → Bool
  | .program _ _ cs => containsWhileS cs
  | .blockN _ _ cs => containsWhileS cs
  | .varDecl _ _ cs _ _ => containsWhileS cs
  | .assignS _ _ i e => containsWhile i || containsWhile e
  | .printS _ _ e => containsWhile e
  | .whileS _ _ _ _ _ => true
  | .ifS _ _ c t e => containsWhile c || containsWhile t || containsWhileO e
  | .binExpr _ _ _ l r => containsWhile l || containsWhile r
  | .identN _ _ _ => false
  | .intLit _ _ _ => false
  | .strLit _ _ _ => false
  | .boolLit _ _ _ => false

def containsWhileS : ANs → Bool
  | .nil => false
  | .cons h t => containsWhile h || containsWhileS t

def containsWhileO : ANOpt → Bool
  | .none => false
  | .some a => containsWhile a

end

/-! ## Code generator (src/src/codeGeneration.ts)

State record mirroring the private fields of `class CodeGenerator`.  Note that
`staticStart` is a mutable field (incremented by `allocateStatic`) and that
`generate`'s per-run reset clears `code`, `staticTable`, `stringPool`,
`currentHeapAddress`, `tempCounter`, `currentScope` and `placeholders` but
*not* `staticStart` and *not* `symbolTable` (codeGeneration.ts lines 89-98). -/

/-- Entry of the code generator's `symbolTable` (interface `Symbol`). -/
structure GSym where
  type : String
  name : String
  address : Nat
  scope : Nat
  placeholderTag : String
deriving DecidableEq

/-- Entry of the code generator's `placeholders` list. -/
structure GPh where
  tag : String
  position : Nat
  kind : String
deriving DecidableEq

/-- The private state of a `CodeGenerator` instance. -/
structure GenSt where
  code : List Nat
  staticTable : List (String × Nat)
  stringPool : List (String × Nat)
  staticStart : Nat
  currentHeapAddress : Nat
  symbolTable : List GSym
  tempCounter : Nat
  currentScope : Nat
  placeholders : List GPh
deriving DecidableEq

/-- `heapStart = 0x00E0`, a constant field of the generator. -/
def heapStart : Nat := 0xE0

/-- Result of a code-generator method: normal return or a thrown exception
carrying the instance state at the moment of the throw. -/
abbrev GRes := Except (String × GenSt) GenSt

namespace CodeGenerator

/-- `emitByte`: `this.code.push(value & 0xFF)`. -/
def emitByte (v : Nat) (s : GenSt) : GenSt :=
  { s with code := s.code ++ [v % 256] }

/-- `emitByte` at the one call site that can receive a negative JavaScript
number (the backward branch distance in `generateWhileStatement`); JavaScript
`& 0xFF` on a negative 32-bit integer equals the nonnegative residue mod 256. -/
def emitByteI (v : Int) (s : GenSt) : GenSt :=
  { s with code := s.code ++ [(v.emod 256).toNat] }

/-- `emitWord`: little-endian 16-bit emission. -/
def emitWord (v : Nat) (s : GenSt) : GenSt :=
  emitByte (v / 256 % 256) (emitByte (v % 256) s)

/-- `emitLdaConst`. -/
def emitLdaConst (v : Nat) (s : GenSt) : GenSt := emitByte v (emitByte 0xA9 s)

/-- `emitLdaMem`. -/
def emitLdaMem (a : Nat) (s : GenSt) : GenSt := emitWord a (emitByte 0xAD s)

/-- `emitSta`. -/
def emitSta (a : Nat) (s : GenSt) : GenSt := emitWord a (emitByte 0x8D s)

/-- `emitLdxConst`. -/
def emitLdxConst (v : Nat) (s : GenSt) : GenSt := emitByte v (emitByte 0xA2 s)

/-- `emitLdxMem`. -/
def emitLdxMem (a : Nat) (s : GenSt) : GenSt := emitWord a (emitByte 0xAE s)

/-- `emitLdyConst`. -/
def emitLdyConst (v : Nat) (s : GenSt) : GenSt := emitByte v (emitByte 0xA0 s)

/-- `emitLdyMem`. -/
def emitLdyMem (a : Nat) (s : GenSt) : GenSt := emitWord a (emitByte 0xAC s)

/-- `emitCpx`. -/
def emitCpx (a : Nat) (s : GenSt) : GenSt := emitWord a (emitByte 0xEC s)

/-- `emitSys`. -/
def emitSys (s : GenSt) : GenSt := emitByte 0xFF s

/-- Association-list lookup used for the generator's object maps. -/
def assocFind (l : List (String × Nat)) (k : String) : Option Nat :=
  match l.find? (fun p => p.1 == k) with
  | Option.some p => Option.some p.2
  | Option.none => Option.none

/-- Association-list assignment `m[k] = v` (insertion order preserved). -/
def assocSet (l : List (String × Nat)) (k : String) (v : Nat) : List (String × Nat) :=
  match l with
  | [] => [(k, v)]
  | p :: t => if p.1 == k then (k, v) :: t else p :: assocSet t k v

/-- `allocateStatic`.  The source guard is the JavaScript truthiness test
`if (this.staticTable[name])`, which treats a stored `0` like absence; stored
addresses start at `0x1F`, so the two coincide on every reachable state, and we
keep the value test for fidelity. -/
def allocateStatic (name : String) (s : GenSt) : Nat × GenSt :=
  match assocFind s.staticTable name with
  | Option.some a =>
      if a ≠ 0 then (a, s)
      else
        (s.staticStart,
          { s with staticTable := assocSet s.staticTable name s.staticStart,
                   staticStart := s.staticStart + 1 })
  | Option.none =>
      (s.staticStart,
        { s with staticTable := assocSet s.staticTable name s.staticStart,
                 staticStart := s.staticStart + 1 })

/-- `getTempVar`: `0x0000 + this.tempCounter++`. -/
def getTempVar (s : GenSt) : Nat × GenSt :=
  (s.tempCounter, { s with tempCounter := s.tempCounter + 1 })

/-- `findSymbol`: scan `symbolTable` from the end, returning the first symbol
with the right name whose scope is at most `currentScope`. -/
def findSymbol (name : String) (s : GenSt) : Option GSym :=
  s.symbolTable.reverse.find? (fun sym => sym.name == name && decide (sym.scope ≤ s.currentScope))

/-- `getStringAddress`: intern a string literal in the string pool. -/
def getStringAddress (v : String) (s : GenSt) : Nat × GenSt :=
  match assocFind s.stringPool v with
  | Option.some a => (a, s)
  | Option.none =>
      (s.currentHeapAddress,
        { s with stringPool := s.stringPool ++ [(v, s.currentHeapAddress)],
                 currentHeapAddress := s.currentHeapAddress + (v.length + 1) })

/-- `addPlaceholder` (the `type` argument is always `"address"`). -/
def addPlaceholder (tag : String) (s : GenSt) : GenSt :=
  { s with placeholders := s.placeholders ++ [⟨tag, s.code.length, "address"⟩] }

/-- `generateVarDecl` (reads only `node.children`; the `!typeNode ||
!identifierNode` part of the source guard is unrepresentable here because both
list elements exist whenever the length test passes, and `!identifierNode.name`
is the JavaScript falsiness test, true for a missing or empty name). -/
def generateVarDecl (cs : ANs) (s : GenSt) : GRes :=
  match cs with
  | .nil => .error ("Invalid VarDeclaration node: Missing required children", s)
  | .cons _ .nil => .error ("Invalid VarDeclaration node: Missing required children", s)
  | .cons typeNode (.cons identNode _) =>
    match identNode.nameF with
    | Option.none => .error ("Invalid VarDeclaration node: Missing type or identifier", s)
    | Option.some nm =>
      if nm = "" then .error ("Invalid VarDeclaration node: Missing type or identifier", s)
      else
        let ty :=
          match typeNode.nameF with
          | Option.some t => jsOrS t "int"
          | Option.none => "int"
        let tag := s!"T{s.tempCounter}"
        let s := { s with tempCounter := s.tempCounter + 1 }
        let (address, s) := allocateStatic nm s
        let s := { s with symbolTable := s.symbolTable ++ [⟨ty, nm, address, s.currentScope, tag⟩] }
        let s := emitByte 0x8D s
        let s := addPlaceholder tag s
        let s := emitByte 0x00 s
        let s := emitByte 0x00 s
        .ok s

/-- `generateAssignment` (the `!node.identifier || !node.expression` guard of
the source is unrepresentable: the adapter always sets both fields). -/
def generateAssignment (idN exN : AN) (s : GenSt) : GRes :=
  let varName := match idN.nameF with
    | Option.some n => n
    | Option.none => ""
  if varName = "" then .error ("Variable name not found", s)
  else
    match findSymbol varName s with
    | Option.none => .error (s!"Undefined variable: {varName}", s)
    | Option.some sym =>
      match exN with
      | .intLit _ _ v =>
        let s := emitLdaConst v s
        let s := emitByte 0x8D s
        let s := addPlaceholder sym.placeholderTag s
        let s := emitByte 0x00 s
        let s := emitByte 0x00 s
        .ok s
      | .boolLit _ _ b =>
        let s := emitLdaConst (if b then 0xF5 else 0xF0) s
        let s := emitByte 0x8D s
        let s := addPlaceholder sym.placeholderTag s
        let s := emitByte 0x00 s
        let s := emitByte 0x00 s
        .ok s
      | .strLit _ _ v =>
        let (addr, s) := getStringAddress v s
        let s := emitLdaConst addr s
        let s := emitByte 0x8D s
        let s := addPlaceholder sym.placeholderTag s
        let s := emitByte 0x00 s
        let s := emitByte 0x00 s
        .ok s
      | .identN _ _ srcName =>
        match findSymbol srcName s with
        | Option.none => .error (s!"Undefined variable: {srcName}", s)
        | Option.some src =>
          let s := emitByte 0xAD s
          let s := addPlaceholder src.placeholderTag s
          let s := emitByte 0x00 s
          let s := emitByte 0x00 s
          let s := emitByte 0x8D s
          let s := addPlaceholder sym.placeholderTag s
          let s := emitByte 0x00 s
          let s := emitByte 0x00 s
          .ok s
      | _ => .error ("Unsupported value type", s)

/-- `generatePrintInt`. -/
def generatePrintInt (s : GenSt) : GenSt :=
  let (tempAddr, s) := getTempVar s
  let s := emitSta tempAddr s
  let s := emitLdyMem tempAddr s
  let s := emitLdxConst 0x01 s
  emitSys s

/-- `generatePrintBool`. -/
def generatePrintBool (s : GenSt) : GenSt :=
  let (tempAddr, s) := getTempVar s
  let s := emitSta tempAddr s
  let s := emitLdyMem tempAddr s
  let s := emitLdxConst 0x02 s
  emitSys s

/-- `generatePrintStatement` (reads `node.expression`). -/
def generatePrintStatement (exN : AN) (s : GenSt) : GRes :=
  match exN with
  | .intLit _ _ v =>
    let s := emitLdaConst v s
    .ok (generatePrintInt s)
  | .boolLit _ _ b =>
    let s := emitLdaConst (if b then 0xF5 else 0xF0) s
    .ok (generatePrintBool s)
  | .strLit _ _ v =>
    let (addr, s) := getStringAddress v s
    let s := emitLdyConst addr s
    let s := emitLdxConst 0x02 s
    .ok (emitSys s)
  | .identN _ _ n =>
    match findSymbol n s with
    | Option.none => .error (s!"Undefined variable: {n}", s)
    | Option.some sym =>
      let s := emitByte 0xAC s
      let s := addPlaceholder sym.placeholderTag s
      let s := emitByte 0x00 s
      let s := emitByte 0x00 s
      let s := emitLdxConst 0x01 s
      .ok (emitSys s)
  | _ => .error ("Unsupported expression type in print statement", s)

/-- `generateComparisonCode`: emit the comparison fragment for a
`BinaryExpression` (the `!node.left || !node.right` guard is unrepresentable:
the embedded `binExpr` constructor always carries both operands). -/
def generateComparisonCode (node : AN) (s : GenSt) : GRes :=
  match node with
  | .binExpr _ _ op l r =>
    let leftRes : Except (String × GenSt) GenSt :=
      match l with
      | .identN _ _ n =>
        match findSymbol n s with
        | Option.none => .error (s!"Undefined variable: {n}", s)
        | Option.some sym => .ok (emitLdxMem sym.address s)
      | .intLit _ _ v => .ok (emitLdxConst v s)
      | _ => .error ("Unsupported left operand type", s)
    match leftRes with
    | .error e => .error e
    | .ok s =>
      let rightRes : Except (String × GenSt) GenSt :=
        match r with
        | .identN _ _ n =>
          match findSymbol n s with
          | Option.none => .error (s!"Undefined variable: {n}", s)
          | Option.some sym => .ok (emitLdaConst sym.address s)
        | .intLit _ _ v => .ok (emitLdaConst v s)
        | _ => .error ("Unsupported right operand type", s)
      match rightRes with
      | .error e => .error e
      | .ok s =>
        let s := emitCpx 0x00 s
        let s := emitLdaConst 0x00 s
        if op = "==" then
          let s := emitByte 0xD0 s
          let s := emitByte 0x02 s
          .ok (emitLdaConst 0x01 s)
        else if op = "!=" then
          let s := emitByte 0xD0 s
          let s := emitByte 0x02 s
          .ok (emitLdaConst 0x00 s)
        else .error (s!"Unsupported comparison operator: {op}", s)
  | _ => .error ("Invalid comparison node: Expected BinaryExpression", s)

/-- `calculateJumpDistance`: the source ignores the body and returns the
constant `5`. -/
def calculateJumpDistance (_bodyNode : AN) : Nat := 5

mutual

/-- `visit`: dispatch on `node.type`.  `generateBlock`, `generateIfStatement`
and `generateWhileStatement` are inlined into their arms (they are the
recursive cases); `Program` and the leaf node types fall into the source's
`default` arm, which visits `node.children` when present and non-empty. -/
def visit : AN → GenSt → GRes
  | .blockN _ _ .nil, s =>
    -- generateBlock of an empty statement list
    let s := { s with currentScope := s.currentScope + 1 }
    let s := emitByte 0xEA s
    .ok { s with currentScope := s.currentScope - 1 }
  | .blockN _ _ (.cons h t), s =>
    -- generateBlock
    let s := { s with currentScope := s.currentScope + 1 }
    (match visitList (.cons h t) s with
     | .ok s2 => .ok { s2 with currentScope := s2.currentScope - 1 }
     | .error e => .error e)
  | .varDecl _ _ cs _ _, s => generateVarDecl cs s
  | .assignS _ _ idN exN, s => generateAssignment idN exN s
  | .printS _ _ exN, s => generatePrintStatement exN s
  | .ifS _ _ cond thenB .none, s =>
    -- generateIfStatement without else branch (the `!node.condition ||
    -- !node.thenBranch` guard is unrepresentable: the embedded constructor
    -- always carries both fields)
    (match generateComparisonCode cond s with
     | .error e => .error e
     | .ok s =>
       let s := emitSta 0x0000 s
       let s := emitLdxMem 0x0000 s
       let s := emitCpx 0x0000 s
       let _jumpDistance := calculateJumpDistance thenB
       let s := emitByte 0xD0 s
       let s := emitByte 0x05 s
       match visit thenB s with
       | .error e => .error e
       | .ok s => .ok s)
  | .ifS _ _ cond thenB (.some els), s =>
    -- generateIfStatement with an else branch
    (match generateComparisonCode cond s with
     | .error e => .error e
     | .ok s =>
       let s := emitSta 0x0000 s
       let s := emitLdxMem 0x0000 s
       let s := emitCpx 0x0000 s
       let _jumpDistance := calculateJumpDistance thenB
       let s := emitByte 0xD0 s
       let s := emitByte 0x05 s
       match visit thenB s with
       | .error e => .error e
       | .ok s =>
         let s := emitByte 0xA9 s
         let s := emitByte 0x01 s
         let s := emitByte 0xD0 s
         let s := emitByte 0x05 s
         visit els s)
  | .whileS _ _ _ _ .none, s =>
    -- generateWhileStatement: requires `node.children[0]` and
    -- `node.children[1]`; throws otherwise
    .error ("Invalid WhileStatement node", s)
  | .whileS _ _ _ _ (.some .nil), s => .error ("Invalid WhileStatement node", s)
  | .whileS _ _ _ _ (.some (.cons _ .nil)), s => .error ("Invalid WhileStatement node", s)
  | .whileS _ _ _ _ (.some (.cons condN (.cons bodyN _))), s =>
    (
       let loopStartPosition := s.code.length
       match generateComparisonCode condN s with
       | .error e => .error e
       | .ok s =>
         let s := emitSta 0x0000 s
         let s := emitLdxMem 0x0000 s
         let s := emitCpx 0x0000 s
         let jumpInstPosition := s.code.length
         let s := emitByte 0xD0 s
         let s := emitByte 0x00 s
         match visit bodyN s with
         | .error e => .error e
         | .ok s =>
           let s := emitByte 0xA9 s
           let s := emitByte 0x01 s
           let s := emitByte 0xD0 s
           let distanceBack : Int := (s.code.length : Int) - (loopStartPosition : Int) + 2
           let s := emitByteI (0xFF - distanceBack + 1) s
           let bodySize := s.code.length - jumpInstPosition - 2
           -- plain array store, no `& 0xFF` in the source
           .ok { s with code := s.code.set (jumpInstPosition + 1) (bodySize + 2) })
  | .binExpr l c op le r, s => generateComparisonCode (.binExpr l c op le r) s
  | .program _ _ .nil, s =>
    -- `default` arm: Program is not in the switch; nothing to visit
    .ok s
  | .program _ _ (.cons h t), s =>
    -- `default` arm: visit the non-empty children list
    visitList (.cons h t) s
  | .identN _ _ _, s => .ok s
  | .intLit _ _ _, s => .ok s
  | .strLit _ _ _, s => .ok s
  | .boolLit _ _ _, s => .ok s

/-- Sequential visit of a statement list (`node.children.forEach(...)`). -/
def visitList : ANs → GenSt → GRes
  | .nil, s => .ok s
  | .cons h t, s =>
    match visit h s with
    | .ok s2 => visitList t s2
    | .error e => .error e

end

/-- One step of `backpatchPlaceholders`: find the *first* symbol carrying the
placeholder's tag and overwrite the two-byte slot little-endian. -/
def backpatchOne (symtab : List GSym) (code : List Nat) (ph : GPh) : List Nat :=
  match symtab.find? (fun sym => sym.placeholderTag == ph.tag) with
  | Option.some sym =>
      (code.set ph.position (sym.address % 256)).set (ph.position + 1) (sym.address / 256 % 256)
  | Option.none => code

/-- `backpatchPlaceholders`. -/
def backpatchPlaceholders (s : GenSt) : GenSt :=
  { s with code := s.placeholders.foldl (backpatchOne s.symbolTable) s.code }

/-- Stable insertion of one pool entry into a descending-by-address list,
modelling the stable `Array.prototype.sort((a, b) => b.addr - a.addr)`. -/
def insDesc (x : String × Nat) : List (String × Nat) → List (String × Nat)
  | [] => [x]
  | y :: t => if x.2 ≤ y.2 then y :: insDesc x t else x :: y :: t

/-- Stable descending-by-address sort of the string pool entries. -/
def sortByAddrDesc (l : List (String × Nat)) : List (String × Nat) :=
  l.foldl (fun acc x => insDesc x acc) []

/-- Place one string: zero-fill up to its address, then its character codes
and a NUL terminator. -/
def placeStr (s : GenSt) (p : String × Nat) : GenSt :=
  let s := { s with code := s.code ++ List.replicate (p.2 - s.code.length) 0 }
  { s with code := s.code ++ p.1.toList.map Char.toNat ++ [0] }

/-- `addStringConstants`: sort the pool entries by descending address, append
`"true"` and `"false"` at the current heap address when the pool lacks them
(the source guard is the truthiness test `!this.stringPool["true"]`, which
coincides with absence because pool addresses are at least `0xE0`), then place
each string. -/
def addStringConstants (s : GenSt) : GenSt :=
  let strings := sortByAddrDesc s.stringPool
  let (strings, s) :=
    match assocFind s.stringPool "true" with
    | Option.some _ => (strings, s)
    | Option.none =>
        (strings ++ [("true", s.currentHeapAddress)],
         { s with currentHeapAddress := s.currentHeapAddress + ("true".length + 1) })
  let (strings, s) :=
    match assocFind s.stringPool "false" with
    | Option.some _ => (strings, s)
    | Option.none =>
        (strings ++ [("false", s.currentHeapAddress)],
         { s with currentHeapAddress := s.currentHeapAddress + ("false".length + 1) })
  strings.foldl placeStr s

/-- The per-run reset at the top of `generate` (lines 90-97): note that
`staticStart` and `symbolTable` are *not* restored. -/
def resetState (s : GenSt) : GenSt :=
  { s with code := [], staticTable := [], stringPool := [],
           currentHeapAddress := heapStart, tempCounter := 0,
           currentScope := 0, placeholders := [] }

/-- The emission phase of `generate`: `LDA# 0` prelude, `visit`, trailing
`BRK`, then backpatching.  Exceptions carry the instance state at the throw. -/
def genBody (s : GenSt) (ast : AN) : GRes :=
  let s := emitLdaConst 0x00 s
  match visit ast s with
  | .error e => .error e
  | .ok s => .ok (backpatchPlaceholders (emitByte 0x00 s))

/-- `CodeGenerator.generate`: reset, emit, backpatch, zero-fill up to
`heapStart - 1`, then append the string constants.  On any thrown error the
method returns the one-byte fallback `[BRK]`; the partially mutated instance
state persists (the `try` block's mutations are not rolled back). -/
def generate (s : GenSt) (ast : AN) : List Nat × GenSt :=
  let s := resetState s
  match genBody s ast with
  | .error (_, s2) => ([0x00], s2)
  | .ok s2 =>
    let s3 := { s2 with code := s2.code ++ List.replicate (heapStart - 1 - s2.code.length) 0 }
    let s4 := addStringConstants s3
    (s4.code, s4)

end CodeGenerator

/-- The state of a freshly constructed `CodeGenerator` instance. -/
def genInit : GenSt :=
  { code := [], staticTable := [], stringPool := [], staticStart := 0x1F,
    currentHeapAddress := 0xE0, symbolTable := [], tempCounter := 0,
    currentScope := 0, placeholders := [] }

/-! ### Concrete ASTs used by the theorems -/

/-- AST of the empty program `{}$` as lowered by the adapter:
`Program [ Block [] ]`. -/
def astEmptyProg : AN := .program 1 1 (.cons (.blockN 1 1 .nil) .nil)

/-- AST of `{ if (1 == 1) { } }$`. -/
def astIfConst : AN :=
  .program 1 1 (.cons
    (.blockN 1 1 (.cons
      (.ifS 1 3 (.binExpr 1 7 "==" (.intLit 1 7 1) (.intLit 1 12 1))
        (.blockN 1 15 .nil) .none)
      .nil))
    .nil)

/-- AST of `{ int a if (a == 1) { } }$`: a declaration followed by an if
statement whose condition reads the variable. -/
def astVarIf : AN :=
  .program 1 1 (.cons
    (.blockN 1 1 (.cons
      (.varDecl 1 3 (.cons (.identN 1 3 "int") (.cons (.identN 1 7 "a") .nil)) "int" "a")
      (.cons
        (.ifS 1 9 (.binExpr 1 13 "==" (.identN 1 13 "a") (.intLit 1 18 1))
          (.blockN 1 21 .nil) .none)
        .nil)))
    .nil)

/-! ## CST and the AST adapter (src/src/combinedAnalyzer.ts, class ASTAdapter)

The adapter dispatches on the `name` field of CST nodes and reads their
optional `token` (with `value`, `line`, `column`) and `children`. -/

/-- A CST token as read by the adapter. -/
structure Tok where
  value : String
  line : Nat
  column : Nat
deriving DecidableEq

mutual

/-- A CST node: `{name, token?, children}`. -/
inductive CSTN : Type where
  | mk (name : String) (token : Option Tok) (children : CSTNs)

/-- A list of CST nodes. -/
inductive CSTNs : Type where
  | nil
  | cons (head : CSTN) (tail : CSTNs)

end

/-- The `name` field. -/
def CSTN.nameC : CSTN → String
  | .mk n _ _ => n

/-- The `token` field. -/
def CSTN.tokenC : CSTN → Option Tok
  | .mk _ t _ => t

/-- The `children` field. -/
def CSTN.childrenC : CSTN → CSTNs
  | .mk _ _ c => c

/-- Membership in a `CSTNs` list. -/
def CSTNs.Mem (c : CSTN) : CSTNs → Prop
  | .nil => False
  | .cons h t => c = h ∨ CSTNs.Mem c t

/-- `tok?.line || 0`. -/
def tokLine : Option Tok → Nat
  | Option.some t => t.line
  | Option.none => 0

/-- `tok?.column || 0`. -/
def tokCol : Option Tok → Nat
  | Option.some t => t.column
  | Option.none => 0

/-- `tok?.value || ""`. -/
def tokVal : Option Tok → String
  | Option.some t => t.value
  | Option.none => ""

/-- `children?.[0]?.token`. -/
def firstChildTok : CSTNs → Option Tok
  | .nil => Option.none
  | .cons (.mk _ t _) _ => t

namespace ASTAdapter

/-- Decimal value of an all-digit character list (`none` on any non-digit). -/
def digitsToNatAux : List Char → Nat → Option Nat
  | [], acc => Option.some acc
  | c :: rest, acc =>
    if '0' ≤ c ∧ c ≤ '9' then digitsToNatAux rest (acc * 10 + (c.toNat - 48))
    else Option.none

/-- Decimal reading of a non-empty all-digit string. -/
def strToNatQ (v : String) : Option Nat :=
  match v.toList with
  | [] => Option.none
  | l => digitsToNatAux l 0

/-- `parseInt(value, 10)` with the `isNaN(...) ? 0 : ...` guard; exact for the
all-digit token values the pipeline produces (`parseInt`'s partial-prefix
parsing of garbage strings is not reachable from the lexer's tokens). -/
def parseIntJS (v : String) : Nat := (strToNatQ v).getD 0

/-- `!isNaN(Number(value))`; `Number("") = 0`, so the empty string counts as
numeric. -/
def numericJS (v : String) : Bool := v == "" || (strToNatQ v).isSome

/-- `value.replace(/^["']|["']$/g, '')`: strip one leading and one trailing
quote character. -/
def stripQuotes (v : String) : String :=
  let l := v.toList
  let l := match l with
    | c :: rest => if c = '"' ∨ c = '\'' then rest else l
    | [] => l
  let l := match l.reverse with
    | c :: rest => if c = '"' ∨ c = '\'' then rest.reverse else l
    | [] => l
  String.mk l

/-- `isStatementNode`. -/
def isStatementNode (c : CSTN) : Bool :=
  ["PrintStatement", "VariableDeclaration", "AssignmentStatement",
   "WhileStatement", "IfStatement"].contains c.nameC

/-- First child with a given `name` (`children.find(...)`). -/
def findChild (name : String) : CSTNs → Option CSTN
  | .nil => Option.none
  | .cons c rest => if c.nameC = name then Option.some c else findChild name rest

/-- `getTypeFromNode`. -/
def getTypeFromNode (o : Option CSTN) : String :=
  match o with
  | Option.none => "unknown"
  | Option.some (.mk _ _ ch) =>
    match ch with
    | .nil => "unknown"
    | .cons (.mk cn _ _) _ =>
      if cn = "IntType" then "int"
      else if cn = "StringType" then "string"
      else if cn = "BooleanType" then "boolean"
      else "unknown"

/-- Character accumulation of `convertStringExpression`'s `else` branch. -/
def stringFromChars : CSTNs → String
  | .nil => ""
  | .cons (.mk cn t _) rest =>
    (if cn = "Char" ∧ tokVal t ≠ "" then tokVal t else "") ++ stringFromChars rest

/-- `convertStringExpression`. -/
def convertStringExpression (c : CSTN) (line column : Nat) : AN :=
  match c.tokenC with
  | Option.some t =>
    if t.value ≠ "" then .strLit line column (stripQuotes t.value)
    else .strLit line column (stringFromChars c.childrenC)
  | Option.none => .strLit line column (stringFromChars c.childrenC)

/-- First pass of `convertExpression` over the children. -/
def exprPassOne (line column : Nat) : CSTNs → Option AN
  | .nil => Option.none
  | .cons (.mk cn t _) rest =>
    match t with
    | Option.some tk =>
      if cn = "Identifier" then Option.some (.identN line column (jsOrS tk.value ""))
      else if cn = "IntLiteral" then Option.some (.intLit line column (parseIntJS tk.value))
      else if cn = "BooleanLiteral" then Option.some (.boolLit line column (tk.value == "true"))
      else if cn = "Digit" ∨ cn = "Digits" then
        Option.some (.intLit line column (parseIntJS tk.value))
      else if cn = "true" ∨ cn = "false" then Option.some (.boolLit line column (cn == "true"))
      else exprPassOne line column rest
    | Option.none =>
      if cn = "true" ∨ cn = "false" then Option.some (.boolLit line column (cn == "true"))
      else exprPassOne line column rest

/-- Second pass of `convertExpression`: any child with a token value. -/
def exprPassTwo (line column : Nat) : CSTNs → Option AN
  | .nil => Option.none
  | .cons (.mk _ t _) rest =>
    match t with
    | Option.some tk =>
      if numericJS tk.value then Option.some (.intLit line column (parseIntJS tk.value))
      else if tk.value = "true" ∨ tk.value = "false" then
        Option.some (.boolLit line column (tk.value == "true"))
      else Option.some (.identN line column tk.value)
    | Option.none => exprPassTwo line column rest

/-- `convertExpression`: always yields a leaf node. -/
def convertExpression (ch : CSTNs) (line column : Nat) : AN :=
  match exprPassOne line column ch with
  | Option.some a => a
  | Option.none =>
    match exprPassTwo line column ch with
    | Option.some a => a
    | Option.none => .intLit line column 0

/-- `convertVarDeclaration`: builds the `[type, identifier]` children (as
`Identifier`-typed leaves) together with `varType`/`varName`. -/
def convertVarDeclaration (ch : CSTNs) (line column : Nat) : AN :=
  let typeNode := findChild "Type" ch
  let identNode := findChild "Identifier" ch
  let kids :=
    match typeNode with
    | Option.some tn =>
      ANs.cons (.identN (jsOr (tokLine tn.tokenC) line) (jsOr (tokCol tn.tokenC) column)
        (getTypeFromNode (Option.some tn)))
        (match identNode with
         | Option.some idn =>
           ANs.cons (.identN (jsOr (tokLine idn.tokenC) line) (jsOr (tokCol idn.tokenC) column)
             (jsOrS (tokVal idn.tokenC) "")) ANs.nil
         | Option.none => ANs.nil)
    | Option.none =>
      match identNode with
      | Option.some idn =>
        ANs.cons (.identN (jsOr (tokLine idn.tokenC) line) (jsOr (tokCol idn.tokenC) column)
          (jsOrS (tokVal idn.tokenC) "")) ANs.nil
      | Option.none => ANs.nil
  let varName :=
    match identNode with
    | Option.some idn => jsOrS (tokVal idn.tokenC) ""
    | Option.none => ""
  .varDecl line column kids (getTypeFromNode typeNode) varName

/-- Cons a conversion result when it is non-null (`if (conv) arr.push(conv)`'s
effect on the accumulated list). -/
def consIf (o : Option AN) (t : ANs) : ANs :=
  match o with
  | Option.some n => .cons n t
  | Option.none => t

/-- Keep an already-set accumulator slot, otherwise take the new value. -/
def keepFirst (o r : Option AN) : Option AN :=
  match o with
  | Option.some x => Option.some x
  | Option.none => r

/-- The second slot: overwritten by the new value only when the first slot was
already set. -/
def whenSet (o r old : Option AN) : Option AN :=
  match o with
  | Option.some _ => r
  | Option.none => old

/-- The else accumulator of `convertIfStatement`: a `Block` child seen after
the then branch replaces it only if the previous child was the
`ElseKeyword`. -/
def pickElse (thenA : Option AN) (prev : Option String) (elseA r : Option AN) : Option AN :=
  match thenA with
  | Option.none => elseA
  | Option.some _ => if prev = Option.some "ElseKeyword" then r else elseA

/-- `convertPrograms`: a single converted child is returned bare, any other
list is wrapped in a `Program` node. -/
def pickProg (line column : Nat) : ANs → AN
  | .cons p .nil => p
  | ps => .program line column ps

/-- The optional else branch as stored on the `IfStatement` node. -/
def toANOpt : Option AN → ANOpt
  | Option.none => ANOpt.none
  | Option.some e => ANOpt.some e

mutual

/-- `convertNode`: dispatch on the `name` of a CST node. -/
def convertNode : CSTN → Option AN
  | .mk name tok ch =>
    let line := jsOr (tokLine tok) (tokLine (firstChildTok ch))
    let column := jsOr (tokCol tok) (tokCol (firstChildTok ch))
    if name = "Programs" then
      Option.some (pickProg line column (convertStmts ch))
    else if name = "Program" then
      Option.some (.program line column (convertProgChildren ch))
    else if name = "Block" then
      Option.some (.blockN line column (findSLConvert ch))
    else if name = "PrintStatement" then
      Option.some (.printS line column ((scanPrintExpr ch).getD (.strLit line column "")))
    else if name = "VariableDeclaration" then
      Option.some (convertVarDeclaration ch line column)
    else if name = "AssignmentStatement" then
      (let pr := scanAssign line column ch Option.none Option.none
       Option.some (.assignS line column (pr.1.getD (.identN line column ""))
         (pr.2.getD (.strLit line column ""))))
    else if name = "WhileStatement" then
      (let pr := scanWhile ch Option.none Option.none
       Option.some (.whileS line column (pr.1.getD (.boolLit line column false))
         (pr.2.getD (.blockN line column .nil)) .none))
    else if name = "IfStatement" then
      (let pr := scanIf ch Option.none Option.none Option.none Option.none
       Option.some (.ifS line column (pr.1.getD (.boolLit line column false))
         (pr.2.1.getD (.blockN line column .nil)) (toANOpt pr.2.2)))
    else if name = "BooleanExpression" then
      (let pr := scanBool ch Option.none Option.none "=="
       Option.some (.binExpr line column pr.2.2 (pr.1.getD (.intLit line column 0))
         (pr.2.1.getD (.intLit line column 0))))
    else if name = "Expression" then
      Option.some (convertExpression ch line column)
    else if name = "StringExpression" then
      Option.some (convertStringExpression (.mk name tok ch) line column)
    else if name = "StatementList" then
      Option.some (.blockN line column (convertStmts ch))
    else if name = "Identifier" then
      Option.some (.identN line column (jsOrS (tokVal tok) ""))
    else convertHead ch

/-- The `default` arm of `convertNode`: convert the first child when there is
one (`node.children?.[0]`). -/
def convertHead : CSTNs → Option AN
  | .nil => Option.none
  | .cons c _ => convertNode c

/-- Collect the non-null conversions of a child list (used for `Programs`,
`StatementList` contents, and block statement lists). -/
def convertStmts : CSTNs → ANs
  | .nil => .nil
  | .cons c rest => consIf (convertNode c) (convertStmts rest)

/-- `convertProgram`'s child loop: keep children that are `Block`s or
statements. -/
def convertProgChildren : CSTNs → ANs
  | .nil => .nil
  | .cons c rest =>
    if c.nameC = "Block" ∨ isStatementNode c then
      consIf (convertNode c) (convertProgChildren rest)
    else convertProgChildren rest

/-- `convertBlock`: find the `StatementList` child and convert its statements
(no `StatementList` child yields an empty block). -/
def findSLConvert : CSTNs → ANs
  | .nil => .nil
  | .cons (.mk cn _ cch) rest =>
    if cn = "StatementList" then convertStmts cch else findSLConvert rest

/-- `convertPrintStatement`'s search: the first `Expression`/`StringExpression`
child is converted (possibly to `null`) and the search stops. -/
def scanPrintExpr : CSTNs → Option AN
  | .nil => Option.none
  | .cons c rest =>
    if c.nameC = "Expression" ∨ c.nameC = "StringExpression" then convertNode c
    else scanPrintExpr rest

/-- `convertAssignment`'s child loop (each match overwrites the accumulator
with the conversion result, even a `null` one). -/
def scanAssign (line column : Nat) :
    CSTNs → Option AN → Option AN → Option AN × Option AN
  | .nil, idA, exA => (idA, exA)
  | .cons c rest, idA, exA =>
    if c.nameC = "Identifier" then scanAssign line column rest (convertNode c) exA
    else if c.nameC = "Expression" then scanAssign line column rest idA (convertNode c)
    else if c.nameC = "StringExpression" then
      scanAssign line column rest idA (Option.some (convertStringExpression c line column))
    else scanAssign line column rest idA exA

/-- `convertWhileStatement`'s child loop. -/
def scanWhile : CSTNs → Option AN → Option AN → Option AN × Option AN
  | .nil, condA, bodyA => (condA, bodyA)
  | .cons c rest, condA, bodyA =>
    if c.nameC = "BooleanExpression" then scanWhile rest (convertNode c) bodyA
    else if c.nameC = "Block" then scanWhile rest condA (convertNode c)
    else scanWhile rest condA bodyA

/-- `convertIfStatement`'s indexed child loop; the second component of the
recursion carries the previous child's name for the `ElseKeyword` test. -/
def scanIf : CSTNs → Option String → Option AN → Option AN → Option AN →
    Option AN × Option AN × Option AN
  | .nil, _, condA, thenA, elseA => (condA, thenA, elseA)
  | .cons c rest, prev, condA, thenA, elseA =>
    if c.nameC = "BooleanExpression" then
      scanIf rest (Option.some c.nameC) (convertNode c) thenA elseA
    else if c.nameC = "Block" then
      scanIf rest (Option.some c.nameC) condA (keepFirst thenA (convertNode c))
        (pickElse thenA prev elseA (convertNode c))
    else scanIf rest (Option.some c.nameC) condA thenA elseA

/-- `convertBooleanExpression`'s child loop. -/
def scanBool : CSTNs → Option AN → Option AN → String →
    Option AN × Option AN × String
  | .nil, lA, rA, op => (lA, rA, op)
  | .cons c rest, lA, rA, op =>
    if c.nameC = "Expression" then
      scanBool rest (keepFirst lA (convertNode c)) (whenSet lA (convertNode c) rA) op
    else if c.nameC = "EqualsOp" then scanBool rest lA rA "=="
    else if c.nameC = "NotEqualsOp" then scanBool rest lA rA "!="
    else scanBool rest lA rA op

end

/-- The body of `convertNode` as a plain (non-recursive) definition, used to
unfold the dispatch symbolically. -/
def convertNodeBody (name : String) (tok : Option Tok) (ch : CSTNs) : Option AN :=
  let line := jsOr (tokLine tok) (tokLine (firstChildTok ch))
  let column := jsOr (tokCol tok) (tokCol (firstChildTok ch))
  if name = "Programs" then
    Option.some (pickProg line column (convertStmts ch))
  else if name = "Program" then
    Option.some (.program line column (convertProgChildren ch))
  else if name = "Block" then
    Option.some (.blockN line column (findSLConvert ch))
  else if name = "PrintStatement" then
    Option.some (.printS line column ((scanPrintExpr ch).getD (.strLit line column "")))
  else if name = "VariableDeclaration" then
    Option.some (convertVarDeclaration ch line column)
  else if name = "AssignmentStatement" then
    (let pr := scanAssign line column ch Option.none Option.none
     Option.some (.assignS line column (pr.1.getD (.identN line column ""))
       (pr.2.getD (.strLit line column ""))))
  else if name = "WhileStatement" then
    (let pr := scanWhile ch Option.none Option.none
     Option.some (.whileS line column (pr.1.getD (.boolLit line column false))
       (pr.2.getD (.blockN line column .nil)) .none))
  else if name = "IfStatement" then
    (let pr := scanIf ch Option.none Option.none Option.none Option.none
     Option.some (.ifS line column (pr.1.getD (.boolLit line column false))
       (pr.2.1.getD (.blockN line column .nil)) (toANOpt pr.2.2)))
  else if name = "BooleanExpression" then
    (let pr := scanBool ch Option.none Option.none "=="
     Option.some (.binExpr line column pr.2.2 (pr.1.getD (.intLit line column 0))
       (pr.2.1.getD (.intLit line column 0))))
  else if name = "Expression" then
    Option.some (convertExpression ch line column)
  else if name = "StringExpression" then
    Option.some (convertStringExpression (.mk name tok ch) line column)
  else if name = "StatementList" then
    Option.some (.blockN line column (convertStmts ch))
  else if name = "Identifier" then
    Option.some (.identN line column (jsOrS (tokVal tok) ""))
  else convertHead ch

/-- `ASTAdapter.convert`: `null` in, `null` out. -/
def convert : Option CSTN → Option AN
  | Option.none => Option.none
  | Option.some c => convertNode c

end ASTAdapter

/-! ## Semantic analyzer (src/src/combinedAnalyzer.ts, class SemanticAnalyzer) -/

/-- `SymbolTableEntry`.  Scopes are `Int` because the constructor seeds the
scope stack with the sentinel `-1`. -/
structure STE where
  name : String
  type : String
  scope : Int
  line : Nat
  column : Nat
  isInitialized : Bool
  isUsed : Bool
deriving DecidableEq

/-- `SemanticIssue` (`type` is `'error'` or `'warning'`). -/
structure SIssue where
  isError : Bool
  message : String
  line : Nat
  column : Nat
deriving DecidableEq

/-- The mutable state of a `SemanticAnalyzer` instance.  The symbol table is a
JavaScript `Map` from name to an entry array; we embed it as an association
list in insertion order (which is the `Map` iteration order).  The top of the
scope stack is the *last* list element, matching array `push`/`pop`. -/
structure SemSt where
  currentScope : Int
  scopeStack : List Int
  symbolTable : List (String × List STE)
  issues : List SIssue
deriving DecidableEq

namespace SemanticAnalyzer

/-- `Map.get` on the embedded symbol table. -/
def tlookup (t : List (String × List STE)) (k : String) : Option (List STE) :=
  match t.find? (fun p => p.1 == k) with
  | Option.some p => Option.some p.2
  | Option.none => Option.none

/-- `Map.set` on the embedded symbol table (keeps insertion order). -/
def tset (t : List (String × List STE)) (k : String) (v : List STE) :
    List (String × List STE) :=
  match t with
  | [] => [(k, v)]
  | p :: rest => if p.1 == k then (k, v) :: rest else p :: tset rest k v

/-- `addError`. -/
def addError (message : String) (line column : Nat) (st : SemSt) : SemSt :=
  { st with issues := st.issues ++ [⟨true, message, line, column⟩] }

/-- `addWarning`. -/
def addWarning (message : String) (line column : Nat) (st : SemSt) : SemSt :=
  { st with issues := st.issues ++ [⟨false, message, line, column⟩] }

/-- `enterScope`: increment the scope counter and push it. -/
def enterScope (st : SemSt) : SemSt :=
  { st with currentScope := st.currentScope + 1,
            scopeStack := st.scopeStack ++ [st.currentScope + 1] }

/-- Scan an entry array in order for the first entry with `scope ≤ bound`,
returning its index (the inner loop of `getSymbol`). -/
def entIdx (bound : Int) : List STE → Nat → Option Nat
  | [], _ => Option.none
  | e :: t, j => if e.scope ≤ bound then Option.some j else entIdx bound t (j + 1)

/-- Walk the scope stack from the top down (the outer loop of `getSymbol`);
the argument is the reversed stack. -/
def stackScan (entries : List STE) : List Int → Option Nat
  | [] => Option.none
  | b :: rest =>
    match entIdx b entries 0 with
    | Option.some j => Option.some j
    | Option.none => stackScan entries rest

/-- Index (into the name's entry array) of the entry `getSymbol` returns. -/
def getSymbolIdx (name : String) (st : SemSt) : Option Nat :=
  match tlookup st.symbolTable name with
  | Option.none => Option.none
  | Option.some entries =>
    if entries = [] then Option.none
    else stackScan entries st.scopeStack.reverse

/-- `getSymbol`. -/
def getSymbol (name : String) (st : SemSt) : Option STE :=
  match tlookup st.symbolTable name with
  | Option.none => Option.none
  | Option.some entries =>
    match getSymbolIdx name st with
    | Option.some j => entries.get? j
    | Option.none => Option.none

/-- In-place update of one array element (the JavaScript mutation of the entry
object returned by `getSymbol`). -/
def updAt : List STE → Nat → (STE → STE) → List STE
  | [], _, _ => []
  | e :: t, 0, f => f e :: t
  | e :: t, j + 1, f => e :: updAt t j f

/-- `markInitialized`: mutate the entry `getSymbol` returns. -/
def markInitialized (name : String) (st : SemSt) : SemSt :=
  match getSymbolIdx name st with
  | Option.none => st
  | Option.some j =>
    match tlookup st.symbolTable name with
    | Option.none => st
    | Option.some entries =>
      { st with symbolTable :=
          (tset st.symbolTable name (updAt entries j (fun e => { e with isInitialized := true }))) }

/-- `markUsed`: mutate the entry `getSymbol` returns. -/
def markUsed (name : String) (st : SemSt) : SemSt :=
  match getSymbolIdx name st with
  | Option.none => st
  | Option.some j =>
    match tlookup st.symbolTable name with
    | Option.none => st
    | Option.some entries =>
      { st with symbolTable :=
          (tset st.symbolTable name (updAt entries j (fun e => { e with isUsed := true }))) }

/-- The redeclaration error message. -/
def redeclMsg (name : String) : String := s!"Redeclaration of '{name}' in the same scope"

/-- The declared-but-never-used warning message. -/
def declMsg (name : String) : String := s!"Variable '{name}' declared but never used"

/-- The initialized-but-never-used warning message. -/
def initMsg (name : String) : String := s!"Variable '{name}' initialized but never used"

/-- `addSymbol`: reject a redeclaration at the current scope, otherwise append
the fresh (uninitialized, unused) entry to the name's array. -/
def addSymbol (name ty : String) (line column : Nat) (st : SemSt) : SemSt :=
  let entry : STE := ⟨name, ty, st.currentScope, line, column, false, false⟩
  let existing := (tlookup st.symbolTable name).getD []
  if existing.any (fun e => e.scope == st.currentScope) then
    addError (redeclMsg name) line column st
  else
    { st with symbolTable := tset st.symbolTable name (existing ++ [entry]) }

/-- Inner loop of the (active) `checkForUnusedVariables`: sweep one name's
entry array, re-testing the suppression condition against the accumulated
issues exactly as the source does. -/
def sweepEntries (name : String) : List STE → SemSt → SemSt
  | [], st => st
  | e :: rest, st =>
    let alreadyErrored := st.issues.any (fun i => strIncludes i.message name && i.isError)
    let st :=
      if alreadyErrored then st
      else
        let st := if !e.isUsed then addWarning (declMsg name) e.line e.column st else st
        if e.isInitialized && !e.isUsed then addWarning (initMsg name) e.line e.column st else st
    sweepEntries name rest st

/-- Outer loop of `checkForUnusedVariables` over `symbolTable.entries()`. -/
def sweepTable : List (String × List STE) → SemSt → SemSt
  | [], st => st
  | (name, entries) :: rest, st => sweepTable rest (sweepEntries name entries st)

/-- `checkForUnusedVariables` (the active version, combinedAnalyzer.ts lines
1153-1169): the `scope` parameter is received but never read — every entry of
every scope is examined on each call. -/
def checkForUnusedVariables (_scope : Int) (st : SemSt) : SemSt :=
  sweepTable st.symbolTable st

/-- `exitScope`: sweep, pop, and restore `currentScope` from the new stack top
(the stack never empties in a run: the sentinel `-1` stays at the bottom; the
`getD 0` default is the unreachable `undefined` case). -/
def exitScope (st : SemSt) : SemSt :=
  let st := checkForUnusedVariables st.currentScope st
  let stack := st.scopeStack.dropLast
  { st with scopeStack := stack, currentScope := stack.getLast?.getD 0 }

/-- JavaScript rendering of a possibly-`null` type in a template literal. -/
def optTypeStr (o : Option String) : String := o.getD "null"

/-- The key used for `node.identifier.name || node.identifier.value`; for the
adapter's Identifier nodes `value` equals `name`, so the fallback collapses;
the literal cases approximate the JavaScript property bag and are unreachable
on adapter output. -/
def identKey : AN → String
  | .identN _ _ n => n
  | .intLit _ _ v => toString v
  | .strLit _ _ v => v
  | .boolLit _ _ b => if b then "true" else "false"
  | _ => ""

/-- Shared tail of `analyzeAssignment`: compare the target's type with the
computed right-hand-side type. -/
def finishAssign (symbol : STE) (exprType : String) (line column : Nat) (st : SemSt) :
    Option String × SemSt :=
  if symbol.type ≠ exprType then
    (Option.some symbol.type,
      addError s!"Type mismatch in assignment: Cannot assign {exprType} to {symbol.type}" line column st)
  else (Option.some symbol.type, st)

/-- `analyzeAssignment` when the right-hand side is a literal: look up the
target, error when undeclared, otherwise mark it initialized and compare
types. -/
def asgLit (name ty : String) (line column : Nat) (st : SemSt) : Option String × SemSt :=
  match getSymbol name st with
  | Option.none =>
    (Option.none, addError s!"Assignment to undeclared variable '{name}'" line column st)
  | Option.some symbol => finishAssign symbol ty line column (markInitialized name st)

/-- `analyzeAssignment` when the right-hand side is an identifier: the type
comes from the symbol table without recursion. -/
def asgIdent (name : String) (line column : Nat) (en : String) (st : SemSt) :
    Option String × SemSt :=
  match getSymbol name st with
  | Option.none =>
    (Option.none, addError s!"Assignment to undeclared variable '{name}'" line column st)
  | Option.some symbol =>
    let st := markInitialized name st
    match getSymbol en st with
    | Option.none =>
      (Option.none, addError s!"Undefined variable '{en}' in expression" line column st)
    | Option.some es => finishAssign symbol es.type line column st

mutual

/-- `analyzeNode`: the recursive analysis pass.  Each arm is the corresponding
`analyzeX` method; `analyzeAssignment` is inlined because its identifier /
literal cases read types without recursion while other expressions recurse. -/
def analyzeNode : AN → SemSt → Option String × SemSt
  | .program _ _ cs, st => (Option.none, analyzeList cs st)
  | .blockN _ _ cs, st =>
    let st := enterScope st
    let st := analyzeList cs st
    (Option.none, exitScope st)
  | .varDecl line column _ vt vn, st =>
    (Option.some vt, addSymbol vn vt line column st)
  | .assignS line column idN (.strLit _ _ _), st =>
    asgLit (identKey idN) "string" line column st
  | .assignS line column idN (.intLit _ _ _), st =>
    asgLit (identKey idN) "int" line column st
  | .assignS line column idN (.boolLit _ _ _), st =>
    asgLit (identKey idN) "boolean" line column st
  | .assignS line column idN (.identN _ _ en), st =>
    asgIdent (identKey idN) line column en st
  | .assignS line column idN exN, st =>
    (match getSymbol (identKey idN) st with
     | Option.none =>
       (Option.none,
         addError s!"Assignment to undeclared variable '{identKey idN}'" line column st)
     | Option.some symbol =>
       let (t, st2) := analyzeNode exN (markInitialized (identKey idN) st)
       finishAssign symbol (t.getD "unknown") line column st2)
  | .ifS line column cond thenB elseB, st =>
    let (condT, st) := analyzeNode cond st
    let st :=
      if condT ≠ Option.some "boolean" then
        addError s!"If condition must be boolean, got {optTypeStr condT}" line column st
      else st
    let st := (analyzeNode thenB st).2
    let st :=
      match elseB with
      | .none => st
      | .some e => (analyzeNode e st).2
    (Option.none, st)
  | .whileS line column cond body _, st =>
    let (condT, st) := analyzeNode cond st
    let st :=
      if condT ≠ Option.some "boolean" then
        addError s!"While condition must be boolean, got {optTypeStr condT}" line column st
      else st
    (Option.none, (analyzeNode body st).2)
  | .printS _ _ exN, st => (Option.none, (analyzeNode exN st).2)
  | .binExpr line column op l r, st =>
    let (lt, st) := analyzeNode l st
    let (rt, st) := analyzeNode r st
    if op = "+" then
      if lt = Option.some "int" ∧ rt = Option.some "int" then (Option.some "int", st)
      else if lt = Option.some "string" ∧ rt = Option.some "string" then
        (Option.some "string", st)
      else
        (lt, addError
          s!"Type mismatch for operator '+': cannot combine {optTypeStr lt} and {optTypeStr rt}"
          line column st)
    else if op = "==" ∨ op = "!=" then
      if lt ≠ rt then
        (Option.some "boolean",
          addError s!"Cannot compare {optTypeStr lt} with {optTypeStr rt}" line column st)
      else (Option.some "boolean", st)
    else (Option.none, addError s!"Unknown operator: {op}" line column st)
  | .identN line column n, st =>
    (match getSymbol n st with
     | Option.none => (Option.none, addError s!"Undefined variable '{n}'" line column st)
     | Option.some symbol => (Option.some symbol.type, markUsed n st))
  | .intLit _ _ _, st => (Option.some "int", st)
  | .strLit _ _ _, st => (Option.some "string", st)
  | .boolLit _ _ _, st => (Option.some "boolean", st)

/-- Child loop shared by `analyzeProgram` and `analyzeBlock`. -/
def analyzeList : ANs → SemSt → SemSt
  | .nil, st => st
  | .cons h t, st => analyzeList t (analyzeNode h st).2

end

/-- The analyzer state after the constructor runs: `currentScope = 0`,
`scopeStack = [-1]`, then an `enterScope()` (combinedAnalyzer.ts lines
629-635), so analysis starts with `currentScope = 1` and stack `[-1, 1]`. -/
def analyzerInit : SemSt :=
  enterScope { currentScope := 0, scopeStack := [-1], symbolTable := [], issues := [] }

/-- The internal state at the end of `analyze` (the AST argument is the
adapter's result, `null` when lowering failed). -/
def analyzeRun (ast : Option AN) : SemSt :=
  match ast with
  | Option.none => addError "Failed to generate AST from parser output" 0 0 analyzerInit
  | Option.some a => checkForUnusedVariables 0 (analyzeNode a analyzerInit).2

/-- `analyze`: the returned record's `symbolTable` is a fresh empty map when
any error was recorded (only on the non-null-AST path; the null-AST early
return hands back the instance table, which is still empty). -/
def analyze (ast : Option AN) : List (String × List STE) × List SIssue :=
  let st := analyzeRun ast
  match ast with
  | Option.none => (st.symbolTable, st.issues)
  | Option.some _ =>
    if st.issues.any (fun i => i.isError) then ([], st.issues) else (st.symbolTable, st.issues)

end SemanticAnalyzer

/-- AST of `{ int a }$` as lowered by the adapter. -/
def astIntA : AN :=
  .program 1 1 (.cons
    (.blockN 1 1 (.cons
      (.varDecl 1 3 (.cons (.identN 1 3 "int") (.cons (.identN 1 7 "a") .nil)) "int" "a")
      .nil))
    .nil)

/-- AST of `{ int a { int b } }$`: nested blocks, both variables unused. -/
def astNested : AN :=
  .program 1 1 (.cons
    (.blockN 1 1 (.cons
      (.varDecl 1 3 (.cons (.identN 1 3 "int") (.cons (.identN 1 7 "a") .nil)) "int" "a")
      (.cons
        (.blockN 1 9 (.cons
          (.varDecl 1 11 (.cons (.identN 1 11 "int") (.cons (.identN 1 15 "b") .nil)) "int" "b")
          .nil))
        .nil)))
    .nil)

/-! ## Lexer (src/src/main.ts, class Lexer)

The scanning loops are modelled with an explicit fuel parameter; a `none`
result means the fuel ran out with the loop still running.  This is the
honest embedding of loops that, as claim C8 shows, need not terminate: a
claim of termination corresponds to the existence of sufficient fuel, and
non-termination to `none` for *every* fuel. -/

/-- Log levels. -/
inductive LLevel : Type where
  | INFO
  | DEBUG
  | ERROR
  | WARNING
deriving DecidableEq

/-- A lexer log entry (the `color` field of the source is a pure function of
the level and is omitted). -/
structure LLog where
  level : LLevel
  message : String
deriving DecidableEq

/-- `TokenType`. -/
inductive TokTy : Type where
  | I_TYPE
  | S_TYPE
  | B_TYPE
  | PRINT
  | WHILE
  | IF
  | ELSE
  | BOOLEAN_VALUE
  | LEFT_BRACE
  | RIGHT_BRACE
  | LEFT_PAREN
  | RIGHT_PAREN
  | ASSIGN
  | EQUALS
  | NOT_EQUALS
  | INT_OP
  | QUOTE
  | EOF
  | IDENTIFIER
  | DIGIT
  | CHAR
  | SPACE
  | COMMENT_START
  | COMMENT_END
  | OPEN_BLOCK
  | EOP
  | CLOSE_BLOCK
deriving DecidableEq

/-- The string value of a `TokenType` (used by `logToken`). -/
def ttStr : TokTy → String
  | .I_TYPE => "I_TYPE"
  | .S_TYPE => "S_TYPE"
  | .B_TYPE => "B_TYPE"
  | .PRINT => "PRINT"
  | .WHILE => "WHILE"
  | .IF => "IF"
  | .ELSE => "ELSE"
  | .BOOLEAN_VALUE => "BOOLEAN_VALUE"
  | .LEFT_BRACE => "LEFT_BRACE"
  | .RIGHT_BRACE => "RIGHT_BRACE"
  | .LEFT_PAREN => "LEFT_PAREN"
  | .RIGHT_PAREN => "RIGHT_PAREN"
  | .ASSIGN => "ASSIGN"
  | .EQUALS => "EQUALS"
  | .NOT_EQUALS => "NOT_EQUALS"
  | .INT_OP => "INT_OP"
  | .QUOTE => "QUOTE"
  | .EOF => "EOF"
  | .IDENTIFIER => "IDENTIFIER"
  | .DIGIT => "DIGIT"
  | .CHAR => "CHAR"
  | .SPACE => "SPACE"
  | .COMMENT_START => "COMMENT_START"
  | .COMMENT_END => "COMMENT_END"
  | .OPEN_BLOCK => "OPEN_BLOCK"
  | .EOP => "EOP"
  | .CLOSE_BLOCK => "CLOSE_BLOCK"

/-- A lexer token. -/
structure LTok where
  type : TokTy
  value : String
  line : Nat
  column : Nat
deriving DecidableEq

/-- The private state of a `Lexer` instance. -/
structure LexSt where
  input : List Char
  position : Nat
  line : Nat
  column : Nat
  logs : List LLog
  errors : Nat
  warnings : Nat
  programCounter : Nat
  inPrintStatement : Bool
  commentDepth : Nat
  stringStartLine : Nat
  stringStartColumn : Nat
deriving DecidableEq

namespace Lexer

/-- `currentChar`: `this.input[this.position] || ''`; the out-of-range empty
string is `Option.none`. -/
def currentChar (st : LexSt) : Option Char := st.input.get? st.position

/-- `peek` with the default offset 1. -/
def peekC (st : LexSt) : Option Char := st.input.get? (st.position + 1)

/-- Render a possibly-absent character inside a template literal. -/
def charOrEmpty : Option Char → String
  | Option.some c => String.mk [c]
  | Option.none => ""

/-- `advance`. -/
def advance (st : LexSt) : LexSt :=
  if currentChar st = Option.some '\n' then
    { st with line := st.line + 1, column := 1, position := st.position + 1 }
  else { st with column := st.column + 1, position := st.position + 1 }

/-- `addLog`. -/
def addLog (level : LLevel) (message : String) (st : LexSt) : LexSt :=
  { st with logs := st.logs ++ [⟨level, message⟩] }

/-- `logToken`. -/
def logToken (ty : TokTy) (value : String) (line column : Nat) (st : LexSt) : LexSt :=
  addLog .DEBUG s!"Lexer - {ttStr ty} [ {value} ] found at ({line}:{column})" st

/-- `handleError`: count and log the error.  The `advance()` call that the
source comments describe (`// Skip the invalid character to avoid infinite
loops`) is commented out (main.ts line 745) and hence absent here. -/
def handleError (message : String) (line column : Nat) (st : LexSt) : LexSt :=
  addLog .ERROR s!"Lexer - Error:{line}:{column} {message}" { st with errors := st.errors + 1 }

/-- The log entry `handleError` produces. -/
def errLog (line column : Nat) (message : String) : LLog :=
  ⟨.ERROR, s!"Lexer - Error:{line}:{column} {message}"⟩

/-- `addWarning`. -/
def addWarning (message : String) (line column : Nat) (st : LexSt) : LexSt :=
  addLog .WARNING s!"Lexer - Warning:{line}:{column} {message}" { st with warnings := st.warnings + 1 }

/-- `isLetter` (`/[a-z]/`). -/
def isLetter (c : Char) : Bool := decide ('a' ≤ c ∧ c ≤ 'z')

/-- `isDigit` (`/[0-9]/`). -/
def isDigitC (c : Char) : Bool := decide ('0' ≤ c ∧ c ≤ '9')

/-- `isIdentifierChar`. -/
def isIdentifierChar (c : Char) : Bool := isLetter c || isDigitC c || c == '_'

/-- `isLetter` on a possibly-absent character (`isLetter('') = false`). -/
def isLetterO : Option Char → Bool
  | Option.some c => isLetter c
  | Option.none => false

/-- `isDigit` on a possibly-absent character. -/
def isDigitO : Option Char → Bool
  | Option.some c => isDigitC c
  | Option.none => false

/-- Lower-casing used by keyword matching. -/
def charLower (c : Char) : Char :=
  if 'A' ≤ c ∧ c ≤ 'Z' then Char.ofNat (c.toNat + 32) else c

/-- `word.toLowerCase()`. -/
def strLower (v : String) : String := String.mk (v.toList.map charLower)

/-- `isKeyword`. -/
def isKeyword (w : String) : Bool :=
  ["int", "string", "boolean", "print", "while", "if", "else", "true", "false"].contains
    (strLower w)

/-- `validateStringChar`. -/
def validateStringChar (c : Char) (line column : Nat) (st : LexSt) : Bool × LexSt :=
  if isLetter c then (true, st)
  else
    (false,
      handleError s!"Invalid character '{c}' in string, only lowercase a-z allowed" line column st)

/-- The character loop of `handleString`.  The result's boolean marks the
early `return` of the multiline-string case; the unreachable `Option.none`
of `currentChar` inside the bounds check is treated as loop exit. -/
def hsLoop : Nat → LexSt → List LTok → Option (LexSt × List LTok × Bool)
  | 0, _, _ => Option.none
  | n + 1, st, toks =>
    if st.position < st.input.length then
      match currentChar st with
      | Option.some c =>
        if c = '"' then Option.some (st, toks, false)
        else if c = '\n' then
          Option.some
            (handleError "Multiline strings are not allowed" st.stringStartLine st.stringStartColumn st,
             toks, true)
        else
          let cl := st.line
          let cc := st.column
          let p := validateStringChar c cl cc st
          let q : LexSt × List LTok :=
            if p.1 then
              (logToken .CHAR (String.mk [c]) cl cc p.2, toks ++ [⟨.CHAR, String.mk [c], cl, cc⟩])
            else (p.2, toks)
          hsLoop n (advance q.1) q.2
      | Option.none => Option.some (st, toks, false)
    else Option.some (st, toks, false)

/-- `handleString`. -/
def handleString (fuel : Nat) (st : LexSt) (toks : List LTok) : Option (LexSt × List LTok) :=
  let st := { st with stringStartLine := st.line, stringStartColumn := st.column }
  let toks := toks ++ [⟨.QUOTE, "\"", st.line, st.column⟩]
  let st := logToken .QUOTE "\"" st.line st.column st
  let st := advance st
  match hsLoop fuel st toks with
  | Option.none => Option.none
  | Option.some (st, toks, true) => Option.some (st, toks)
  | Option.some (st, toks, false) =>
    match currentChar st with
    | Option.some '"' =>
      let toks := toks ++ [⟨.QUOTE, "\"", st.line, st.column⟩]
      let st := logToken .QUOTE "\"" st.line st.column st
      Option.some (advance st, toks)
    | _ =>
      Option.some (handleError "Unterminated string" st.stringStartLine st.stringStartColumn st, toks)

/-- The scanning loop of `skipComment` (result boolean = `foundEnd`). -/
def scLoop : Nat → LexSt → Option (LexSt × Bool)
  | 0, _ => Option.none
  | n + 1, st =>
    if st.position < st.input.length then
      if currentChar st == Option.some '/' && peekC st == Option.some '*' then
        scLoop n { advance (advance st) with commentDepth := st.commentDepth + 1 }
      else if currentChar st == Option.some '*' && peekC st == Option.some '/' then
        let st := advance (advance st)
        let st := { st with commentDepth := st.commentDepth - 1 }
        if st.commentDepth = 0 then Option.some (st, true) else scLoop n st
      else scLoop n (advance st)
    else Option.some (st, false)

/-- The skip-to-newline loop after an unterminated comment. -/
def scSkip : Nat → LexSt → Option LexSt
  | 0, _ => Option.none
  | n + 1, st =>
    if st.position < st.input.length ∧ currentChar st ≠ Option.some '\n' then
      scSkip n (advance st)
    else Option.some st

/-- `skipComment`. -/
def skipComment (fuel : Nat) (st : LexSt) : Option LexSt :=
  let st := { st with commentDepth := st.commentDepth + 1 }
  let startLine := st.line
  let startColumn := st.column
  match scLoop fuel st with
  | Option.none => Option.none
  | Option.some (st, true) => Option.some st
  | Option.some (st, false) =>
    scSkip fuel (handleError "Unterminated comment block" startLine startColumn st)

/-- `readNumber`. -/
def readNumber (st : LexSt) : String × LexSt :=
  if st.position < st.input.length ∧ isDigitO (currentChar st) then
    match currentChar st with
    | Option.some c => (String.mk [c], advance st)
    | Option.none => ("", st)
  else ("", st)

/-- `processIdentifier`. -/
def processIdentifier (w : String) (line column : Nat) : LTok :=
  if strLower w = "true" ∨ strLower w = "false" then ⟨.BOOLEAN_VALUE, w, line, column⟩
  else ⟨.IDENTIFIER, w, line, column⟩

/-- The keyword-prefix scan of `readBuffer`: try buffers of increasing length
and stop at the first keyword match. -/
def kwScan (acc : List Char) : List Char → Option (List Char)
  | [] => Option.none
  | c :: cs =>
    let acc := acc ++ [c]
    if isKeyword (String.mk acc) then Option.some acc else kwScan acc cs

/-- `readBuffer`: buffer the identifier-character run from the current
position, emit the shortest keyword prefix when one exists, otherwise a
single-character identifier. -/
def readBuffer (st : LexSt) : String × LexSt :=
  let chars := (st.input.drop st.position).takeWhile isIdentifierChar
  match kwScan [] chars with
  | Option.some kw =>
    (String.mk kw,
      { st with position := st.position + kw.length, column := st.column + kw.length })
  | Option.none =>
    match chars with
    | [] => ("", st)
    | c :: _ => (String.mk [c], { st with position := st.position + 1, column := st.column + 1 })

/-- `processKeyword`. -/
def processKeyword (w : String) (line column : Nat) (st : LexSt) : Option LTok × LexSt :=
  let lw := strLower w
  if lw = "int" then (Option.some ⟨.I_TYPE, w, line, column⟩, st)
  else if lw = "string" then (Option.some ⟨.S_TYPE, w, line, column⟩, st)
  else if lw = "boolean" then (Option.some ⟨.B_TYPE, w, line, column⟩, st)
  else if lw = "while" then (Option.some ⟨.WHILE, w, line, column⟩, st)
  else if lw = "if" then (Option.some ⟨.IF, w, line, column⟩, st)
  else if lw = "else" then (Option.some ⟨.ELSE, w, line, column⟩, st)
  else if lw = "print" then
    (Option.some ⟨.PRINT, w, line, column⟩, { st with inPrintStatement := true })
  else (Option.none, st)

/-- `processNextToken`. -/
def processNextToken (line column : Nat) (st : LexSt) : Option LTok × LexSt :=
  let (word, st) := readBuffer st
  if word = "" then (Option.none, st)
  else
    match processKeyword word line column st with
    | (Option.some t, st) => (Option.some t, st)
    | (Option.none, st) => (Option.some (processIdentifier word line column), st)

/-- The `while (this.currentChar() === ' ')` whitespace skips in the inline
print handling. -/
def ssLoop : Nat → LexSt → Option LexSt
  | 0, _ => Option.none
  | n + 1, st =>
    if currentChar st == Option.some ' ' then ssLoop n (advance st) else Option.some st

/-- The inline print-statement handling of `tokenize`'s identifier arm
(main.ts lines 645-691). -/
def printInline (fuel : Nat) (st : LexSt) (toks : List LTok) : Option (LexSt × List LTok) :=
  match ssLoop fuel st with
  | Option.none => Option.none
  | Option.some st =>
    if currentChar st == Option.some '(' then
      let toks := toks ++ [⟨.LEFT_PAREN, "(", st.line, st.column⟩]
      let st := logToken .LEFT_PAREN "(" st.line st.column st
      let st := advance st
      match ssLoop fuel st with
      | Option.none => Option.none
      | Option.some st =>
        let next : Option (LexSt × List LTok) :=
          if currentChar st == Option.some '"' then handleString fuel st toks
          else
            let st := handleError
              s!"Expected string after print(, found '{charOrEmpty (currentChar st)}'"
              st.line st.column st
            Option.some (advance st, toks)
        match next with
        | Option.none => Option.none
        | Option.some (st, toks) =>
          if currentChar st == Option.some ')' then
            let toks := toks ++ [⟨.RIGHT_PAREN, ")", st.line, st.column⟩]
            let st := logToken .RIGHT_PAREN ")" st.line st.column st
            Option.some (advance st, toks)
          else
            Option.some
              (handleError s!"Expected closing parenthesis, found '{charOrEmpty (currentChar st)}'"
                st.line st.column st, toks)
    else
      Option.some
        (handleError
          s!"Expected opening parenthesis after print, found '{charOrEmpty (currentChar st)}'"
          st.line st.column st, toks)

/-- The post-loop epilogue of `tokenize`: missing-EOP warning and synthetic
EOP, unclosed-comment error, and the completion log line. -/
def finishTokenize (st : LexSt) (toks : List LTok) : List LTok × List LLog :=
  let stToks : LexSt × List LTok :=
    match toks.getLast? with
    | Option.some t =>
      if t.type ≠ .EOP then
        (addWarning "Missing end of program symbol ($)" st.line st.column st,
         toks ++ [⟨.EOP, "$", st.line, st.column⟩])
      else (st, toks)
    | Option.none => (st, toks)
  let (st, toks) := stToks
  let st := if st.commentDepth > 0 then handleError "Unclosed comment block(s)" st.line st.column st else st
  let st :=
    if st.errors > 0 then
      addLog .ERROR s!"Lexer - Lex failed with {st.errors} error(s) and {st.warnings} warning(s)" st
    else addLog .INFO s!"Lexer - Lex completed with {st.warnings} warning(s)" st
  (toks, st.logs)

/-- The main scanning loop of `tokenize`.  One unit of fuel is one loop
iteration; `Option.none` means the loop was still running when the fuel ran
out.  The unreachable `Option.none` of `currentChar` inside the bounds check
is treated as loop exit. -/
def tokenizeLoop : Nat → LexSt → List LTok → Option (List LTok × List LLog)
  | 0, _, _ => Option.none
  | n + 1, st, toks =>
    if st.position < st.input.length then
      let cl := st.line
      let cc := st.column
      match currentChar st with
      | Option.some '{' =>
        let toks := toks ++ [⟨.OPEN_BLOCK, "\x7b", cl, cc⟩]
        let st := logToken .OPEN_BLOCK "\x7b" cl cc st
        tokenizeLoop n (advance st) toks
      | Option.some '}' =>
        let toks := toks ++ [⟨.CLOSE_BLOCK, "\x7d", cl, cc⟩]
        let st := logToken .CLOSE_BLOCK "\x7d" cl cc st
        tokenizeLoop n (advance st) toks
      | Option.some '(' =>
        let toks := toks ++ [⟨.LEFT_PAREN, "(", cl, cc⟩]
        let st := logToken .LEFT_PAREN "(" cl cc st
        tokenizeLoop n (advance st) toks
      | Option.some ')' =>
        let toks := toks ++ [⟨.RIGHT_PAREN, ")", cl, cc⟩]
        let st := logToken .RIGHT_PAREN ")" cl cc st
        tokenizeLoop n (advance st) toks
      | Option.some '"' =>
        (match handleString n st toks with
         | Option.none => Option.none
         | Option.some (st, toks) => tokenizeLoop n st toks)
      | Option.some '=' =>
        if peekC st == Option.some '=' then
          let toks := toks ++ [⟨.EQUALS, "==", cl, cc⟩]
          let st := logToken .EQUALS "==" cl cc st
          tokenizeLoop n (advance (advance st)) toks
        else
          let toks := toks ++ [⟨.ASSIGN, "=", cl, cc⟩]
          let st := logToken .ASSIGN "=" cl cc st
          tokenizeLoop n (advance st) toks
      | Option.some '!' =>
        if peekC st == Option.some '=' then
          let toks := toks ++ [⟨.NOT_EQUALS, "!=", cl, cc⟩]
          let st := logToken .NOT_EQUALS "!=" cl cc st
          tokenizeLoop n (advance (advance st)) toks
        else
          -- `this.handleError(char, currentLine, currentColumn)` — no advance
          tokenizeLoop n (handleError "!" cl cc st) toks
      | Option.some '+' =>
        let toks := toks ++ [⟨.INT_OP, "+", cl, cc⟩]
        let st := logToken .INT_OP "+" cl cc st
        tokenizeLoop n (advance st) toks
      | Option.some '$' =>
        let toks := toks ++ [⟨.EOP, "$", cl, cc⟩]
        let st := logToken .EOP "$" cl cc st
        let st := advance st
        let st :=
          if st.errors > 0 then addLog .ERROR s!"Lexer - Lex failed with {st.errors} error(s)" st
          else st
        let st := if st.errors = 0 then addLog .INFO " Lexer - Lex completed with 0 errors" st else st
        let st := { st with programCounter := st.programCounter + 1 }
        let st :=
          if st.position < st.input.length then
            { addLog .INFO s!"Lexer - Lexing program {st.programCounter}.." st with errors := 0 }
          else st
        tokenizeLoop n st toks
      | Option.some '/' =>
        if peekC st == Option.some '*' then
          (match skipComment n (advance (advance st)) with
           | Option.none => Option.none
           | Option.some st => tokenizeLoop n st toks)
        else
          let st := handleError s!"Unexpected character after '/': {charOrEmpty (peekC st)}"
            st.line st.column st
          tokenizeLoop n (advance st) toks
      | Option.some c =>
        if isDigitC c then
          let (digit, st) := readNumber st
          let (st, toks) :=
            if digit ≠ "" then
              (logToken .DIGIT digit cl cc st, toks ++ [⟨.DIGIT, digit, cl, cc⟩])
            else (st, toks)
          tokenizeLoop n st toks
        else if c = ' ' ∨ c = '\n' ∨ c = '\t' ∨ c = '\r' then
          tokenizeLoop n (advance st) toks
        else if isLetter c then
          (match processNextToken cl cc st with
           | (Option.none, st) => tokenizeLoop n st toks
           | (Option.some t, st) =>
             let toks := toks ++ [t]
             let st := logToken t.type t.value cl cc st
             if t.type = .PRINT then
               match printInline n st toks with
               | Option.none => Option.none
               | Option.some (st, toks) => tokenizeLoop n st toks
             else tokenizeLoop n st toks)
        else
          let st := handleError (String.mk [c]) cl cc st
          tokenizeLoop n (advance st) toks
      | Option.none => Option.some (finishTokenize st toks)
    else Option.some (finishTokenize st toks)

/-- The state of a freshly constructed `Lexer` instance. -/
def lexInit (input : List Char) : LexSt :=
  { input := input, position := 0, line := 1, column := 1,
    logs := [⟨.INFO, "Lexer - Lexing program 1.."⟩], errors := 0, warnings := 0,
    programCounter := 1, inPrintStatement := false, commentDepth := 0,
    stringStartLine := 0, stringStartColumn := 0 }

/-- `tokenize`, with fuel for the scanning loops. -/
def tokenize (fuel : Nat) (input : List Char) : Option (List LTok × List LLog) :=
  tokenizeLoop fuel (lexInit input) []

end Lexer

/-! ## Further concrete inputs used by the theorems -/

/-- Is a code-generator result a thrown error? -/
def CodeGenerator.isErr : GRes → Bool
  | .error _ => true
  | .ok _ => false

/-- AST of `{ a = 3 }$`: assignment to an undeclared variable (a semantic
error). -/
def astAssignUndeclared : AN :=
  .program 1 1 (.cons
    (.blockN 1 1 (.cons
      (.assignS 1 3 (.identN 1 3 "a") (.intLit 1 7 3))
      .nil))
    .nil)

/-- AST of `{ int a { int a } }$`: shadowing declaration in a nested block. -/
def astShadow : AN :=
  .program 1 1 (.cons
    (.blockN 1 1 (.cons
      (.varDecl 1 3 (.cons (.identN 1 3 "int") (.cons (.identN 1 7 "a") .nil)) "int" "a")
      (.cons
        (.blockN 1 9 (.cons
          (.varDecl 1 11 (.cons (.identN 1 11 "int") (.cons (.identN 1 15 "a") .nil)) "int" "a")
          .nil))
        .nil)))
    .nil)

/-- CST (as the adapter reads it) of `{ while (1 == 1) { } }$`. -/
def cstWhileProg : CSTN :=
  .mk "Program" Option.none (.cons
    (.mk "Block" (Option.some ⟨"\x7b", 1, 1⟩) (.cons
      (.mk "StatementList" Option.none (.cons
        (.mk "WhileStatement" (Option.some ⟨"while", 1, 3⟩) (.cons
          (.mk "BooleanExpression" Option.none (.cons
            (.mk "Expression" Option.none
              (.cons (.mk "Digit" (Option.some ⟨"1", 1, 10⟩) .nil) .nil))
            (.cons (.mk "EqualsOp" (Option.some ⟨"==", 1, 12⟩) .nil)
              (.cons
                (.mk "Expression" Option.none
                  (.cons (.mk "Digit" (Option.some ⟨"1", 1, 15⟩) .nil) .nil))
                .nil))))
          (.cons
            (.mk "Block" (Option.some ⟨"\x7b", 1, 18⟩)
              (.cons (.mk "StatementList" Option.none .nil) .nil))
            .nil)))
        .nil))
      .nil))
    .nil)

/-- The adapter's lowering of `cstWhileProg`. -/
def astWhile : AN :=
  .program 1 1 (.cons
    (.blockN 1 1 (.cons
      (.whileS 1 3
        (.binExpr 0 0 "==" (.intLit 1 10 1) (.intLit 1 15 1))
        (.blockN 1 18 .nil) .none)
      .nil))
    .nil)

/-- CST (as the adapter reads it) of `{ int a }$`. -/
def cstIntA : CSTN :=
  .mk "Program" Option.none (.cons
    (.mk "Block" (Option.some ⟨"\x7b", 1, 1⟩) (.cons
      (.mk "StatementList" Option.none (.cons
        (.mk "VariableDeclaration" (Option.some ⟨"int", 1, 3⟩) (.cons
          (.mk "Type" (Option.some ⟨"int", 1, 3⟩) (.cons (.mk "IntType" Option.none .nil) .nil))
          (.cons (.mk "Identifier" (Option.some ⟨"a", 1, 7⟩) .nil) .nil)))
        .nil))
      .nil))
    .nil)

/-- Number of characters the string validator rejects. -/
def nonLetterCount (l : List Char) : Nat := (l.filter (fun c => !Lexer.isLetter c)).length

/-! ## C9: scoping machinery -/

/-- The entry array the symbol table holds for a name (`[]` when the name is
absent), exactly as `addSymbol` reads it. -/
def entriesOf (st : SemSt) (name : String) : List STE :=
  (SemanticAnalyzer.tlookup st.symbolTable name).getD []

/-- The per-name invariant behind C9: no two entries of a single name share a
scope ID, i.e. within a single scope no two symbol-table entries share a
name. -/
def TableOK (t : List (String × List STE)) : Prop :=
  ∀ name l, SemanticAnalyzer.tlookup t name = Option.some l → (l.map STE.scope).Nodup

mutual

/-- Structural size of an AST node, the induction measure for the analysis
pass. -/
def anSize : AN → Nat
  | .program _ _ cs => ansSize cs + 1
  | .blockN _ _ cs => ansSize cs + 1
  | .varDecl _ _ cs _ _ => ansSize cs + 1
  | .assignS _ _ i e => anSize i + anSize e + 1
  | .printS _ _ e => anSize e + 1
  | .whileS _ _ c b ch => anSize c + anSize b + ansoSize ch + 1
  | .ifS _ _ c t e => anSize c + anSize t + anoSize e + 1
  | .binExpr _ _ _ l r => anSize l + anSize r + 1
  | .identN _ _ _ => 1
  | .intLit _ _ _ => 1
  | .strLit _ _ _ => 1
  | .boolLit _ _ _ => 1

/-- Size of a node list. -/
def ansSize : ANs → Nat
  | .nil => 0
  | .cons h t => anSize h + ansSize t

/-- Size of an optional node. -/
def anoSize : ANOpt → Nat
  | .none => 0
  | .some a => anSize a

/-- Size of an optional node list. -/
def ansoSize : ANsOpt → Nat
  | .none => 0
  | .some l => ansSize l

end

/-! ## C2: shape machinery -/

mutual

/-- Structural size of a CST node, the induction measure for the adapter. -/
def cstSize : CSTN → Nat
  | .mk _ _ ch => cstsSize ch + 1

/-- Size of a CST node list. -/
def cstsSize : CSTNs → Nat
  | .nil => 0
  | .cons c rest => cstSize c + cstsSize rest

end

/-- Is a node one of the four expression leaves? -/
def isLeafA : AN → Bool
  | .identN _ _ _ => true
  | .intLit _ _ _ => true
  | .strLit _ _ _ => true
  | .boolLit _ _ _ => true
  | _ => false

mutual

/-- The adapter-output shape that forces the generator onto its error path for
every contained while: while nodes carry no `children` array, and whiles never
hide inside positions the generator does not recurse into. -/
def goodW : AN → Bool
  | .program _ _ cs => goodWS cs
  | .blockN _ _ cs => goodWS cs
  | .varDecl _ _ cs _ _ => !containsWhileS cs
  | .assignS _ _ i e => !containsWhile i && !containsWhile e
  | .printS _ _ e => !containsWhile e
  | .whileS _ _ _ _ ANsOpt.none => true
  | .whileS _ _ _ _ (ANsOpt.some _) => false
  | .ifS _ _ c t e => !containsWhile c && goodW t && goodWO e
  | .binExpr _ _ _ l r => !containsWhile l && !containsWhile r
  | .identN _ _ _ => true
  | .intLit _ _ _ => true
  | .strLit _ _ _ => true
  | .boolLit _ _ _ => true

/-- `goodW` for node lists. -/
def goodWS : ANs → Bool
  | .nil => true
  | .cons h t => goodW h && goodWS t

/-- `goodW` for optional nodes. -/
def goodWO : ANOpt → Bool
  | .none => true
  | .some a => goodW a

end

/-- The suppression test of the unused-variable sweep: some already-recorded
issue is an ERROR whose message contains the name as a substring. -/
def errFor (issues : List SIssue) (name : String) : Bool :=
  issues.any (fun i => strIncludes i.message name && i.isError)

/-- Specification of the `handleString` character loop on a suffix free of
closing quotes and newlines: the loop consumes the whole input, adds one
invalid-character error per non-letter, and preserves the remembered opening
position. -/
theorem hsLoop_spec : ∀ (rest : List Char) (fuel : Nat) (st : LexSt) (toks : List LTok),
    st.input.drop st.position = rest →
    rest.length < fuel →
    '"' ∉ rest → '\n' ∉ rest →
    ∃ st2 toks2, Lexer.hsLoop fuel st toks = Option.some (st2, toks2, false) ∧
      st2.input = st.input ∧
      st.input.length ≤ st2.position ∧
      st2.errors = st.errors + nonLetterCount rest ∧
      st2.stringStartLine = st.stringStartLine ∧
      st2.stringStartColumn = st.stringStartColumn ∧
      ∃ mid, st2.logs = st.logs ++ mid ∧
        (mid.filter fun l => l.level == LLevel.ERROR).length = nonLetterCount rest := by
  intro rest
  induction rest with
  | nil =>
    intro fuel st toks hdrop hfuel _ _
    obtain ⟨k, rfl⟩ : ∃ k, fuel = k + 1 := ⟨fuel - 1, by omega⟩
    have hle : st.input.length ≤ st.position := List.drop_eq_nil_iff.mp hdrop
    have hpos : ¬ st.position < st.input.length := by omega
    refine ⟨st, toks, ?_, rfl, hle, by simp [nonLetterCount], rfl, rfl, [], by simp,
      by simp [nonLetterCount]⟩
    unfold Lexer.hsLoop
    simp [hpos]
  | cons c rest ih =>
    intro fuel st toks hdrop hfuel hq hn
    obtain ⟨k, rfl⟩ : ∃ k, fuel = k + 1 := ⟨fuel - 1, by omega⟩
    have hfuel2 : rest.length < k := by
      have : (c :: rest).length = rest.length + 1 := rfl
      omega
    have hcq : c ≠ '"' := fun h => hq (h ▸ List.mem_cons_self c rest)
    have hcn : c ≠ '\n' := fun h => hn (h ▸ List.mem_cons_self c rest)
    have hcur : Lexer.currentChar st = Option.some c := by
      have : (st.input.drop st.position).get? 0 = Option.some c := by rw [hdrop]; rfl
      rwa [List.get?_drop, Nat.add_zero] at this
    have hlt : st.position < st.input.length := by
      by_contra hge
      have : st.input.drop st.position = [] := List.drop_eq_nil_of_le (by omega)
      rw [this] at hdrop
      exact List.noConfusion hdrop
    -- the state fed to the recursive call
    have key : ∀ st' : LexSt, st'.input = st.input → st'.position = st.position →
        st'.stringStartLine = st.stringStartLine → st'.stringStartColumn = st.stringStartColumn →
        (Lexer.advance st').input.drop (Lexer.advance st').position = rest ∧
        (Lexer.advance st').input = st.input ∧
        (Lexer.advance st').stringStartLine = st.stringStartLine ∧
        (Lexer.advance st').stringStartColumn = st.stringStartColumn := by
      intro st' h1 h2 h3 h4
      have hadvp : (Lexer.advance st').position = st'.position + 1 := by
        unfold Lexer.advance
        split <;> rfl
      have hadvi : (Lexer.advance st').input = st'.input := by
        unfold Lexer.advance
        split <;> rfl
      have hadv3 : (Lexer.advance st').stringStartLine = st'.stringStartLine := by
        unfold Lexer.advance
        split <;> rfl
      have hadv4 : (Lexer.advance st').stringStartColumn = st'.stringStartColumn := by
        unfold Lexer.advance
        split <;> rfl
      refine ⟨?_, by rw [hadvi, h1], by rw [hadv3, h3], by rw [hadv4, h4]⟩
      rw [hadvi, hadvp, h1, h2]
      have : st.input.drop (st.position + 1) = (st.input.drop st.position).drop 1 := by
        rw [List.drop_drop, Nat.add_comm]
      rw [this, hdrop]
      rfl
    unfold Lexer.hsLoop
    simp only [hlt, if_true, hcur, if_neg hcq, if_neg hcn]
    by_cases hlet : Lexer.isLetter c = true
    · -- accepted character: a CHAR token and a DEBUG log
      have hval : Lexer.validateStringChar c st.line st.column st = (true, st) := by
        unfold Lexer.validateStringChar
        rw [hlet]
        simp
      simp only [hval, if_true]
      set stL := Lexer.logToken .CHAR (String.mk [c]) st.line st.column st with hstL
      have hfacts := key stL rfl rfl rfl rfl
      obtain ⟨st2, toks2, heq, hi, hp, he, hs1, hs2, mid, hlogs, hcount⟩ :=
        ih k (Lexer.advance stL) (toks ++ [⟨.CHAR, String.mk [c], st.line, st.column⟩])
          hfacts.1 hfuel2 (fun h => hq (List.mem_cons_of_mem _ h))
          (fun h => hn (List.mem_cons_of_mem _ h))
      have hadvLogs : (Lexer.advance stL).logs = st.logs ++ [⟨.DEBUG,
          s!"Lexer - {ttStr .CHAR} [ {String.mk [c]} ] found at ({st.line}:{st.column})"⟩] := by
        unfold Lexer.advance
        split <;> rfl
      have hadvErr : (Lexer.advance stL).errors = st.errors := by
        unfold Lexer.advance
        split <;> rfl
      have hcnt : nonLetterCount (c :: rest) = nonLetterCount rest := by
        simp [nonLetterCount, List.filter, hlet]
      refine ⟨st2, toks2, heq, by rw [hi, hfacts.2.1], ?_, ?_, by rw [hs1, hfacts.2.2.1],
        by rw [hs2, hfacts.2.2.2],
        ⟨.DEBUG, s!"Lexer - {ttStr .CHAR} [ {String.mk [c]} ] found at ({st.line}:{st.column})"⟩ ::
          mid, ?_, ?_⟩
      · rw [hfacts.2.1] at hi
        rw [hfacts.2.1] at hp
        exact hp
      · rw [hcnt]
        omega
      · rw [hlogs, hadvLogs]
        simp
      · rw [hcnt, ← hcount]
        have hb : (LLevel.DEBUG == LLevel.ERROR) = false := rfl
        simp [List.filter, hb]
    · -- rejected character: an invalid-character error, no token
      have hlet2 : Lexer.isLetter c = false := by
        cases h : Lexer.isLetter c
        · rfl
        · exact absurd h hlet
      have hval : Lexer.validateStringChar c st.line st.column st =
          (false, Lexer.handleError
            s!"Invalid character '{c}' in string, only lowercase a-z allowed"
            st.line st.column st) := by
        unfold Lexer.validateStringChar
        rw [hlet2]
        simp
      simp only [hval, Bool.false_eq_true, if_false]
      set stE := Lexer.handleError
        s!"Invalid character '{c}' in string, only lowercase a-z allowed" st.line st.column st
        with hstE
      have hfacts := key stE rfl rfl rfl rfl
      obtain ⟨st2, toks2, heq, hi, hp, he, hs1, hs2, mid, hlogs, hcount⟩ :=
        ih k (Lexer.advance stE) toks
          hfacts.1 hfuel2 (fun h => hq (List.mem_cons_of_mem _ h))
          (fun h => hn (List.mem_cons_of_mem _ h))
      have hadvLogs : (Lexer.advance stE).logs = st.logs ++
          [Lexer.errLog st.line st.column
            s!"Invalid character '{c}' in string, only lowercase a-z allowed"] := by
        unfold Lexer.advance
        split <;> rfl
      have hadvErr : (Lexer.advance stE).errors = st.errors + 1 := by
        unfold Lexer.advance
        split <;> rfl
      have hcnt : nonLetterCount (c :: rest) = nonLetterCount rest + 1 := by
        simp [nonLetterCount, List.filter, hlet2]
      refine ⟨st2, toks2, heq, by rw [hi, hfacts.2.1], ?_, ?_, by rw [hs1, hfacts.2.2.1],
        by rw [hs2, hfacts.2.2.2],
        Lexer.errLog st.line st.column
          s!"Invalid character '{c}' in string, only lowercase a-z allowed" :: mid, ?_, ?_⟩
      · rw [hfacts.2.1] at hp
        exact hp
      · rw [hcnt]
        omega
      · rw [hlogs, hadvLogs]
        simp
      · rw [hcnt, ← hcount]
        have hb : (LLevel.ERROR == LLevel.ERROR) = true := rfl
        simp [List.filter, Lexer.errLog, hb]

/-! ## Claim theorems -/

/-- C1 (counterexample): for the semantically-valid AST of the empty program
`{}$` (no ERROR issues), `CodeGenerator.generate` returns 235 bytes, not the
256 bytes the claim states: the image is never zero-padded to 256. -/
theorem C1_counterexample :
    (SemanticAnalyzer.analyze (Option.some astEmptyProg)).2.any (fun i => i.isError) = false ∧
    (CodeGenerator.generate genInit astEmptyProg).1.length = 235 ∧
    ¬ (CodeGenerator.generate genInit astEmptyProg).1.length = 256 := by
  refine ⟨by decide, by decide, by decide⟩

/-- `addStringConstants` on a state with empty string pool, heap pointer at
`0xE0` and exactly 223 code bytes appends one fill zero and the NUL-terminated
`"true"` and `"false"` constants. -/
theorem addStringConstants_empty (s : GenSt) (hp : s.stringPool = [])
    (hh : s.currentHeapAddress = 224) (hl : s.code.length = 223) :
    (CodeGenerator.addStringConstants s).code =
      s.code ++ [0, 116, 114, 117, 101, 0, 102, 97, 108, 115, 101, 0] := by
  unfold CodeGenerator.addStringConstants
  rw [hp, hh]
  show (CodeGenerator.placeStr (CodeGenerator.placeStr s ("true", 224)) ("false", 229)).code = _
  unfold CodeGenerator.placeStr
  simp only [hl]
  simp [hl, List.append_assoc]

/-- C1 (amended): whenever the emission phase succeeds with an empty string
pool (heap pointer still at `0xE0`) and at most `0xDF` code bytes, `generate`
returns the emitted code, zero fill up to index `0xDE`, one further zero at
`0xDF`, then `"true"` NUL-terminated at `0xE0` and `"false"` NUL-terminated at
`0xE5` — 235 bytes in total, not 256. -/
theorem C1_amended (s0 : GenSt) (ast : AN) (s2 : GenSt)
    (h : CodeGenerator.genBody (CodeGenerator.resetState s0) ast = .ok s2)
    (hpool : s2.stringPool = [])
    (hheap : s2.currentHeapAddress = 224)
    (hlen : s2.code.length ≤ 223) :
    (CodeGenerator.generate s0 ast).1 =
      s2.code ++ List.replicate (223 - s2.code.length) 0 ++
        [0, 116, 114, 117, 101, 0, 102, 97, 108, 115, 101, 0] ∧
    (CodeGenerator.generate s0 ast).1.length = 235 := by
  have hgen : (CodeGenerator.generate s0 ast).1 =
      (CodeGenerator.addStringConstants
        { s2 with code := s2.code ++ List.replicate (heapStart - 1 - s2.code.length) 0 }).code := by
    unfold CodeGenerator.generate
    simp only [h]
  have hlen3 :
      ({ s2 with code := s2.code ++ List.replicate (heapStart - 1 - s2.code.length) 0 } :
        GenSt).code.length = 223 := by
    simp [heapStart]
    omega
  have hmain := addStringConstants_empty
    { s2 with code := s2.code ++ List.replicate (heapStart - 1 - s2.code.length) 0 }
    hpool hheap hlen3
  rw [hgen, hmain]
  have h223 : heapStart - 1 - s2.code.length = 223 - s2.code.length := rfl
  constructor
  · simp [h223, List.append_assoc]
  · simp
    omega

/-- C1 (witness): the amended layout theorem applied to the empty program. -/
theorem C1_amended_witness :
    (CodeGenerator.generate genInit astEmptyProg).1.length = 235 :=
  (C1_amended genInit astEmptyProg
    ⟨[169, 0, 234, 0], [], [], 31, 224, [], 0, 0, []⟩
    rfl (by decide) (by decide) (by decide)).2

/-- C3 (counterexample): for `{ int a }$` the analyzer records the entry at
scope 2 (the constructor pre-opens scope 1 before the top-level block) and
emits the unused warning twice, so "scope number 1" and "exactly one warning"
are both false. -/
theorem C3_counterexample :
    (SemanticAnalyzer.analyze (Option.some astIntA)).1 =
      [("a", [⟨"a", "int", 2, 1, 3, false, false⟩])] ∧
    (SemanticAnalyzer.analyze (Option.some astIntA)).2 =
      [⟨false, SemanticAnalyzer.declMsg "a", 1, 3⟩,
       ⟨false, SemanticAnalyzer.declMsg "a", 1, 3⟩] ∧
    ¬ ((SemanticAnalyzer.analyze (Option.some astIntA)).1 =
        [("a", [⟨"a", "int", 1, 1, 3, false, false⟩])] ∧
       (SemanticAnalyzer.analyze (Option.some astIntA)).2.length = 1) := by
  refine ⟨by decide, by decide, by decide⟩

/-- C3 (amended): for `{ int a }$` (CST lowered by the adapter to `astIntA`)
the analyzer produces exactly one entry — `a : int`, uninitialized, unused, at
scope **2** — and emits the declared-but-never-used warning **twice** (once at
block exit, once in the final sweep). -/
theorem C3_amended :
    ASTAdapter.convert (Option.some cstIntA) = Option.some astIntA ∧
    (SemanticAnalyzer.analyze (Option.some astIntA)).1 =
      [("a", [⟨"a", "int", 2, 1, 3, false, false⟩])] ∧
    (SemanticAnalyzer.analyze (Option.some astIntA)).2 =
      [⟨false, SemanticAnalyzer.declMsg "a", 1, 3⟩,
       ⟨false, SemanticAnalyzer.declMsg "a", 1, 3⟩] := by
  refine ⟨rfl, by decide, by decide⟩

/-- C4 (counterexample): in `{ int a { int b } }$` the sweep runs at the inner
exit, the outer exit and the final sweep, each time over *all* entries, so the
unused warning for each variable appears three times — refuting "entries of
other scopes are not re-examined and produce no duplicate warnings". -/
theorem C4_counterexample :
    ((SemanticAnalyzer.analyze (Option.some astNested)).2.filter
       (fun i => i.message == SemanticAnalyzer.declMsg "a")).length = 3 ∧
    ((SemanticAnalyzer.analyze (Option.some astNested)).2.filter
       (fun i => i.message == SemanticAnalyzer.declMsg "b")).length = 3 ∧
    ¬ ((SemanticAnalyzer.analyze (Option.some astNested)).2.filter
       (fun i => i.message == SemanticAnalyzer.declMsg "a")).length = 1 := by
  refine ⟨by decide, by decide, by decide⟩

/-- Appending warnings does not change the suppression test. -/
theorem errFor_append_false (issues : List SIssue) (ws : List SIssue) (name : String)
    (h : ∀ w ∈ ws, w.isError = false) :
    errFor (issues ++ ws) name = errFor issues name := by
  unfold errFor
  rw [List.any_append]
  have : ws.any (fun i => strIncludes i.message name && i.isError) = false := by
    rw [List.any_eq_false]
    intro w hw
    rw [h w hw]
    simp
  rw [this]
  simp

/-- What one name's sweep produces: the state with some warnings appended,
each for an unused entry of that name, only when no prior ERROR mentions the
name. -/
theorem sweepEntries_spec (name : String) :
    ∀ (entries : List STE) (st : SemSt),
      ∃ ws, SemanticAnalyzer.sweepEntries name entries st = { st with issues := st.issues ++ ws } ∧
        ∀ w ∈ ws, w.isError = false ∧ ∃ e, e ∈ entries ∧ e.isUsed = false ∧
          (w = ⟨false, SemanticAnalyzer.declMsg name, e.line, e.column⟩ ∨
            (e.isInitialized = true ∧
              w = ⟨false, SemanticAnalyzer.initMsg name, e.line, e.column⟩)) ∧
          errFor st.issues name = false := by
  intro entries
  induction entries with
  | nil =>
    intro st
    refine ⟨[], ?_, by intro w hw; cases hw⟩
    show st = _
    cases st
    simp
  | cons e rest ih =>
    intro st
    unfold SemanticAnalyzer.sweepEntries
    cases Bool.eq_false_or_eq_true (errFor st.issues name) with
    | inl herr =>
      have hc : (st.issues.any fun i => strIncludes i.message name && i.isError) = true := herr
      simp only [hc, if_true]
      obtain ⟨ws, heq, hprop⟩ := ih st
      refine ⟨ws, heq, ?_⟩
      intro w hw
      obtain ⟨h1, e2, h2, h3, h4, h6⟩ := hprop w hw
      rw [herr] at h6
      exact absurd h6 (by decide)
    | inr herr =>
      have hc : (st.issues.any fun i => strIncludes i.message name && i.isError) = false := herr
      simp only [hc, Bool.false_eq_true, if_false]
      set ws0 : List SIssue :=
        (if !e.isUsed then [⟨false, SemanticAnalyzer.declMsg name, e.line, e.column⟩] else []) ++
        (if e.isInitialized && !e.isUsed then
          [⟨false, SemanticAnalyzer.initMsg name, e.line, e.column⟩] else []) with hws0
      have hstep :
          (if e.isInitialized && !e.isUsed then
            SemanticAnalyzer.addWarning (SemanticAnalyzer.initMsg name) e.line e.column
              (if !e.isUsed then
                SemanticAnalyzer.addWarning (SemanticAnalyzer.declMsg name) e.line e.column st
              else st)
          else
            (if !e.isUsed then
              SemanticAnalyzer.addWarning (SemanticAnalyzer.declMsg name) e.line e.column st
            else st)) = { st with issues := st.issues ++ ws0 } := by
        rw [hws0]
        cases hu : e.isUsed <;> cases hin : e.isInitialized <;>
          simp [SemanticAnalyzer.addWarning, hu, hin] <;> (cases st; simp)
      rw [hstep]
      obtain ⟨ws, heq, hprop⟩ := ih { st with issues := st.issues ++ ws0 }
      refine ⟨ws0 ++ ws, ?_, ?_⟩
      · rw [heq]
        simp
      · intro w hw
        rcases List.mem_append.mp hw with h | h
        · -- from this entry
          rw [hws0] at h
          have hu : e.isUsed = false := by
            by_contra hu2
            have hu3 : e.isUsed = true := by
              cases h2 : e.isUsed
              · exact absurd h2 hu2
              · rfl
            simp [hu3] at h
          rcases List.mem_append.mp h with h2 | h2
          · rw [hu] at h2
            simp at h2
            exact ⟨by rw [h2], e, List.mem_cons_self _ _, hu, Or.inl h2, herr⟩
          · have hin : e.isInitialized = true := by
              by_contra hin2
              have hin3 : e.isInitialized = false := by
                cases h3 : e.isInitialized
                · rfl
                · exact absurd h3 hin2
              simp [hin3] at h2
            rw [hin, hu] at h2
            simp at h2
            exact ⟨by rw [h2], e, List.mem_cons_self _ _, hu, Or.inr ⟨hin, h2⟩, herr⟩
        · -- from the remaining entries
          obtain ⟨h1, e2, h2, h3, h4, _⟩ := hprop w h
          exact ⟨h1, e2, List.mem_cons_of_mem _ h2, h3, h4, herr⟩

/-- Completeness of one name's sweep: an unused, unsuppressed entry always
yields its declared-but-never-used warning. -/
theorem sweepEntries_complete (name : String) :
    ∀ (entries : List STE) (st : SemSt) (e : STE), e ∈ entries → e.isUsed = false →
      errFor st.issues name = false →
      (⟨false, SemanticAnalyzer.declMsg name, e.line, e.column⟩ : SIssue) ∈
        (SemanticAnalyzer.sweepEntries name entries st).issues := by
  intro entries
  induction entries with
  | nil => intro st e h; cases h
  | cons e0 rest ih =>
    intro st e hmem hun herr
    unfold SemanticAnalyzer.sweepEntries
    have hchk : (st.issues.any fun i => strIncludes i.message name && i.isError) = false := herr
    simp only [hchk, Bool.false_eq_true, if_false]
    rcases List.mem_cons.mp hmem with rfl | hmem2
    · -- this very entry produces the warning
      have hun2 : (!e.isUsed) = true := by rw [hun]; rfl
      simp only [hun2, Bool.and_true, if_true]
      set stX := if e.isInitialized = true then
          SemanticAnalyzer.addWarning (SemanticAnalyzer.initMsg name) e.line e.column
            (SemanticAnalyzer.addWarning (SemanticAnalyzer.declMsg name) e.line e.column st)
        else SemanticAnalyzer.addWarning (SemanticAnalyzer.declMsg name) e.line e.column st
        with hstX
      have hw2 : (⟨false, SemanticAnalyzer.declMsg name, e.line, e.column⟩ : SIssue) ∈
          stX.issues := by
        rw [hstX]
        split <;> simp [SemanticAnalyzer.addWarning]
      obtain ⟨ws, heq, _⟩ := sweepEntries_spec name rest stX
      rw [heq]
      exact List.mem_append_left _ hw2
    · -- further down the list; the step only appends warnings
      set stA := (if e0.isInitialized && !e0.isUsed then
          SemanticAnalyzer.addWarning (SemanticAnalyzer.initMsg name) e0.line e0.column
            (if !e0.isUsed then
              SemanticAnalyzer.addWarning (SemanticAnalyzer.declMsg name) e0.line e0.column st
            else st)
        else
          (if !e0.isUsed then
            SemanticAnalyzer.addWarning (SemanticAnalyzer.declMsg name) e0.line e0.column st
          else st)) with hstA
      have hA : ∃ ws0, stA.issues = st.issues ++ ws0 ∧ ∀ w ∈ ws0, w.isError = false := by
        rw [hstA]
        split
        · split
          · refine ⟨[⟨false, SemanticAnalyzer.declMsg name, e0.line, e0.column⟩,
              ⟨false, SemanticAnalyzer.initMsg name, e0.line, e0.column⟩], ?_, ?_⟩
            · simp [SemanticAnalyzer.addWarning]
            · intro w hw
              rcases List.mem_cons.mp hw with rfl | hw2
              · rfl
              · rcases List.mem_cons.mp hw2 with rfl | hw3
                · rfl
                · cases hw3
          · refine ⟨[⟨false, SemanticAnalyzer.initMsg name, e0.line, e0.column⟩], ?_, ?_⟩
            · simp [SemanticAnalyzer.addWarning]
            · intro w hw
              rcases List.mem_cons.mp hw with rfl | hw2
              · rfl
              · cases hw2
        · split
          · refine ⟨[⟨false, SemanticAnalyzer.declMsg name, e0.line, e0.column⟩], ?_, ?_⟩
            · simp [SemanticAnalyzer.addWarning]
            · intro w hw
              rcases List.mem_cons.mp hw with rfl | hw2
              · rfl
              · cases hw2
          · exact ⟨[], by simp, by intro w hw; cases hw⟩
      obtain ⟨ws0, hA1, hA2⟩ := hA
      exact ih stA e hmem2 hun (by rw [hA1, errFor_append_false _ _ _ hA2]; exact herr)

/-- What the whole sweep produces, over every name of the table. -/
theorem sweepTable_spec :
    ∀ (table : List (String × List STE)) (st : SemSt),
      ∃ ws, SemanticAnalyzer.sweepTable table st = { st with issues := st.issues ++ ws } ∧
        ∀ w ∈ ws, w.isError = false ∧ ∃ name entries e, (name, entries) ∈ table ∧ e ∈ entries ∧
          e.isUsed = false ∧
          (w = ⟨false, SemanticAnalyzer.declMsg name, e.line, e.column⟩ ∨
            (e.isInitialized = true ∧
              w = ⟨false, SemanticAnalyzer.initMsg name, e.line, e.column⟩)) ∧
          errFor st.issues name = false := by
  intro table
  induction table with
  | nil =>
    intro st
    refine ⟨[], ?_, by intro w hw; cases hw⟩
    show st = _
    cases st
    simp
  | cons p rest ih =>
    intro st
    obtain ⟨name, entries⟩ := p
    unfold SemanticAnalyzer.sweepTable
    obtain ⟨ws0, heq0, hprop0⟩ := sweepEntries_spec name entries st
    rw [heq0]
    obtain ⟨ws1, heq1, hprop1⟩ := ih { st with issues := st.issues ++ ws0 }
    have hws0warn : ∀ w ∈ ws0, w.isError = false := fun w hw => (hprop0 w hw).1
    refine ⟨ws0 ++ ws1, by rw [heq1]; simp, ?_⟩
    intro w hw
    rcases List.mem_append.mp hw with h | h
    · obtain ⟨h1, e, h2, h3, h4, h5⟩ := hprop0 w h
      exact ⟨h1, name, entries, e, List.mem_cons_self _ _, h2, h3, h4, h5⟩
    · obtain ⟨h1, n, es, e, h2, h3, h4, h5, h6⟩ := hprop1 w h
      refine ⟨h1, n, es, e, List.mem_cons_of_mem _ h2, h3, h4, h5, ?_⟩
      rwa [errFor_append_false _ _ _ hws0warn] at h6

/-- Completeness of the whole sweep. -/
theorem sweepTable_complete :
    ∀ (table : List (String × List STE)) (st : SemSt) (name : String) (entries : List STE)
      (e : STE), (name, entries) ∈ table → e ∈ entries → e.isUsed = false →
      errFor st.issues name = false →
      (⟨false, SemanticAnalyzer.declMsg name, e.line, e.column⟩ : SIssue) ∈
        (SemanticAnalyzer.sweepTable table st).issues := by
  intro table
  induction table with
  | nil => intro st name entries e h; cases h
  | cons p rest ih =>
    intro st name entries e hmem hemem hun herr
    obtain ⟨n0, es0⟩ := p
    unfold SemanticAnalyzer.sweepTable
    rcases List.mem_cons.mp hmem with hhead | htail
    · have h1 : name = n0 := congrArg Prod.fst hhead
      have h2 : entries = es0 := congrArg Prod.snd hhead
      subst h1
      subst h2
      have hin := sweepEntries_complete name entries st e hemem hun herr
      obtain ⟨ws1, heq1, _⟩ := sweepTable_spec rest (SemanticAnalyzer.sweepEntries name entries st)
      rw [heq1]
      exact List.mem_append_left _ hin
    · obtain ⟨ws0, heq0, hprop0⟩ := sweepEntries_spec n0 es0 st
      rw [heq0]
      refine ih _ name entries e htail hemem hun ?_
      show errFor (st.issues ++ ws0) name = false
      rw [errFor_append_false _ _ _ (fun w hw => (hprop0 w hw).1)]
      exact herr

/-- C4 (amended): the active sweep ignores the exited-scope argument and
examines every table entry on every call; each warning it adds concerns an
unused entry of some (unsuppressed) name — the declared-but-never-used one
always, the initialized-but-never-used one additionally for initialized
entries — and every unused entry of a name not mentioned in any earlier ERROR
message does get its warning (on *each* sweep, hence the duplicates across
nested scope exits shown in the counterexample). -/
theorem C4_amended :
    (∀ s1 s2 : Int, ∀ st : SemSt, SemanticAnalyzer.checkForUnusedVariables s1 st =
        SemanticAnalyzer.checkForUnusedVariables s2 st) ∧
    (∀ sc : Int, ∀ st : SemSt, ∀ w : SIssue,
      w ∈ (SemanticAnalyzer.checkForUnusedVariables sc st).issues →
      w ∈ st.issues ∨
        (w.isError = false ∧ ∃ name entries e, (name, entries) ∈ st.symbolTable ∧ e ∈ entries ∧
          e.isUsed = false ∧
          (w = ⟨false, SemanticAnalyzer.declMsg name, e.line, e.column⟩ ∨
            (e.isInitialized = true ∧
              w = ⟨false, SemanticAnalyzer.initMsg name, e.line, e.column⟩)) ∧
          errFor st.issues name = false)) ∧
    (∀ sc : Int, ∀ st : SemSt, ∀ name entries e, (name, entries) ∈ st.symbolTable →
      e ∈ entries → e.isUsed = false → errFor st.issues name = false →
      (⟨false, SemanticAnalyzer.declMsg name, e.line, e.column⟩ : SIssue) ∈
        (SemanticAnalyzer.checkForUnusedVariables sc st).issues) := by
  refine ⟨fun _ _ _ => rfl, ?_, ?_⟩
  · intro sc st w hw
    obtain ⟨ws, heq, hprop⟩ := sweepTable_spec st.symbolTable st
    rw [show SemanticAnalyzer.checkForUnusedVariables sc st =
      SemanticAnalyzer.sweepTable st.symbolTable st from rfl, heq] at hw
    rcases List.mem_append.mp hw with h | h
    · exact Or.inl h
    · exact Or.inr (hprop w h)
  · intro sc st name entries e h1 h2 h3 h4
    exact sweepTable_complete st.symbolTable st name entries e h1 h2 h3 h4

/-- C4 (witness): the amended completeness applied to a one-entry table with
exited scope 3 but entry scope 1 — the warning is still produced. -/
theorem C4_witness :
    (⟨false, SemanticAnalyzer.declMsg "x", 5, 7⟩ : SIssue) ∈
      (SemanticAnalyzer.checkForUnusedVariables 3
        ⟨0, [], [("x", [⟨"x", "int", 1, 5, 7, false, false⟩])], []⟩).issues :=
  C4_amended.2.2 3 ⟨0, [], [("x", [⟨"x", "int", 1, 5, 7, false, false⟩])], []⟩
    "x" [⟨"x", "int", 1, 5, 7, false, false⟩] ⟨"x", "int", 1, 5, 7, false, false⟩
    (List.mem_cons_self _ _) (List.mem_cons_self _ _) rfl rfl

/-- C6 (code bug): the source computes `calculateJumpDistance` as the constant
5 and emits the literal operand `0x05` after `BNE`; for `{ if (1 == 1) { } }$`
the operand byte (index 25) is 5 while the then-body emitted after it is the
single byte `NOP` — an empty block always emits exactly one byte, whatever the
state. -/
theorem C6_theorem :
    (∀ b : AN, CodeGenerator.calculateJumpDistance b = 5) ∧
    (CodeGenerator.generate genInit astIfConst).1.take 28 =
      [0xA9, 0x00, 0xA2, 0x01, 0xA9, 0x01, 0xEC, 0x00, 0x00, 0xA9, 0x00, 0xD0, 0x02,
       0xA9, 0x01, 0x8D, 0x00, 0x00, 0xAE, 0x00, 0x00, 0xEC, 0x00, 0x00, 0xD0, 0x05,
       0xEA, 0x00] ∧
    (∀ l c : Nat, ∀ s : GenSt,
      CodeGenerator.visit (.blockN l c .nil) s = .ok { s with code := s.code ++ [0xEA] }) := by
  refine ⟨fun _ => rfl, by decide, fun l c s => rfl⟩

/-- C7 (code bug): `generate`'s reset leaves `staticStart` and `symbolTable`
untouched, so a second `generate` on the same instance allocates `a` at `0x20`
and the comparison emits `LDX 0x20` where the first run emitted `LDX 0x1F`:
the two byte images differ at index 6. -/
theorem C7_theorem :
    (CodeGenerator.generate genInit astVarIf).1.get? 6 = Option.some 0x1F ∧
    (CodeGenerator.generate (CodeGenerator.generate genInit astVarIf).2 astVarIf).1.get? 6 =
      Option.some 0x20 ∧
    ¬ (CodeGenerator.generate genInit astVarIf).1 =
        (CodeGenerator.generate (CodeGenerator.generate genInit astVarIf).2 astVarIf).1 := by
  refine ⟨by decide, by decide, by decide⟩

/-- C5: the record returned by `analyze` carries an empty symbol table exactly
when an ERROR-level issue was recorded, and the full accumulated table when
all issues are warnings. -/
theorem C5_theorem (ast : Option AN) :
    ((SemanticAnalyzer.analyze ast).2.any (fun i => i.isError) = true →
      (SemanticAnalyzer.analyze ast).1 = []) ∧
    ((SemanticAnalyzer.analyze ast).2.any (fun i => i.isError) = false →
      (SemanticAnalyzer.analyze ast).1 = (SemanticAnalyzer.analyzeRun ast).symbolTable) := by
  cases ast with
  | none => exact ⟨fun _ => rfl, fun _ => rfl⟩
  | some a =>
    unfold SemanticAnalyzer.analyze
    cases h : (SemanticAnalyzer.analyzeRun (Option.some a)).issues.any (fun i => i.isError) with
    | true => simp [h]
    | false => simp [h]

/-- C5 (witness): a program with an erroring assignment gets the empty table;
`{ int a }$` (warnings only) gets the accumulated table. -/
theorem C5_witness :
    (SemanticAnalyzer.analyze (Option.some astAssignUndeclared)).1 = [] ∧
    (SemanticAnalyzer.analyze (Option.some astIntA)).1 =
      (SemanticAnalyzer.analyzeRun (Option.some astIntA)).symbolTable :=
  ⟨(C5_theorem (Option.some astAssignUndeclared)).1 (by decide),
   (C5_theorem (Option.some astIntA)).2 (by decide)⟩

/-- The scanning loop never finishes on the input `"!"`: the `'!'` arm records
its error without advancing, so the state seen by the next iteration has the
same position. -/
theorem bangLoopRunsForever (n : Nat) : ∀ st toks, st.input = ['!'] → st.position = 0 →
    Lexer.tokenizeLoop n st toks = Option.none := by
  induction n with
  | zero => intro st toks _ _; rfl
  | succ n ih =>
    intro st toks h1 h2
    have hcur : Lexer.currentChar st = Option.some '!' := by
      simp [Lexer.currentChar, h1, h2]
    have hpeek : Lexer.peekC st = Option.none := by
      simp [Lexer.peekC, h1, h2]
    have hlt : st.position < st.input.length := by simp [h1, h2]
    unfold Lexer.tokenizeLoop
    simp only [hlt, if_true, hcur, hpeek]
    exact ih _ _ (by simp [Lexer.handleError, Lexer.addLog, h1]) (by simp [Lexer.handleError, Lexer.addLog, h2])

/-- C8 (code bug): `tokenize` does not terminate on the input `"!"` — no
amount of fuel completes the scan, because `handleError` records the error
without advancing the position (its `advance()` is commented out) and the
`'!'` arm performs no advance of its own. -/
theorem C8_theorem :
    (∀ fuel, Lexer.tokenize fuel ['!'] = Option.none) ∧
    (∀ m : String, ∀ l c : Nat, ∀ st : LexSt,
      (Lexer.handleError m l c st).position = st.position ∧
      (Lexer.handleError m l c st).errors = st.errors + 1) :=
  ⟨fun fuel => bangLoopRunsForever fuel _ [] rfl rfl,
   fun _ _ _ _ => ⟨rfl, rfl⟩⟩

/-- C10 (amended): when the input after an opening quote runs out with no
closing quote and no newline, `handleString` records exactly one
`Unterminated string` ERROR, positioned at the opening quote's line and
column and appended last, plus one invalid-character ERROR for each non-letter
character inside; the total is one exactly when every scanned character is a
lowercase letter. -/
theorem C10_amended (st : LexSt) (toks : List LTok) (fuel : Nat)
    (hq : '"' ∉ st.input.drop (st.position + 1))
    (hn : '\n' ∉ st.input.drop (st.position + 1))
    (hfuel : (st.input.drop (st.position + 1)).length < fuel) :
    ∃ st2 toks2,
      Lexer.handleString fuel st toks = Option.some (st2, toks2) ∧
      st2.errors = st.errors + nonLetterCount (st.input.drop (st.position + 1)) + 1 ∧
      ∃ mid, st2.logs = st.logs ++ mid ++
          [Lexer.errLog st.line st.column "Unterminated string"] ∧
        (mid.filter fun l => l.level == LLevel.ERROR).length =
          nonLetterCount (st.input.drop (st.position + 1)) := by
  unfold Lexer.handleString
  set dq : String := "\"" with hdq
  set q : LLog :=
    ⟨.DEBUG, s!"Lexer - {ttStr .QUOTE} [ {dq} ] found at ({st.line}:{st.column})"⟩ with hqdef
  set stB := Lexer.logToken .QUOTE "\"" st.line st.column
    { st with stringStartLine := st.line, stringStartColumn := st.column } with hstB
  have hadvp : (Lexer.advance stB).position = st.position + 1 := by
    unfold Lexer.advance
    split <;> rfl
  have hadvi : (Lexer.advance stB).input = st.input := by
    unfold Lexer.advance
    split <;> rfl
  have hdrop : (Lexer.advance stB).input.drop (Lexer.advance stB).position =
      st.input.drop (st.position + 1) := by rw [hadvp, hadvi]
  obtain ⟨st2, toks2, heq, hi, hp, he, hs1, hs2, mid, hlogs, hcount⟩ :=
    hsLoop_spec (st.input.drop (st.position + 1)) fuel (Lexer.advance stB)
      (toks ++ [⟨.QUOTE, "\"", st.line, st.column⟩]) hdrop hfuel hq hn
  simp only [heq]
  have hcur2 : Lexer.currentChar st2 = Option.none := by
    unfold Lexer.currentChar
    rw [List.get?_eq_none, hi]
    exact hp
  simp only [hcur2]
  have hs1v : st2.stringStartLine = st.line := by
    rw [hs1]
    show (Lexer.advance stB).stringStartLine = st.line
    unfold Lexer.advance
    split <;> rfl
  have hs2v : st2.stringStartColumn = st.column := by
    rw [hs2]
    show (Lexer.advance stB).stringStartColumn = st.column
    unfold Lexer.advance
    split <;> rfl
  have hBe : (Lexer.advance stB).errors = st.errors := by
    unfold Lexer.advance
    split <;> rfl
  have hBlogs : (Lexer.advance stB).logs = st.logs ++ [q] := by
    unfold Lexer.advance
    split <;> rfl
  refine ⟨Lexer.handleError "Unterminated string" st2.stringStartLine st2.stringStartColumn st2,
    toks2, rfl, ?_, q :: mid, ?_, ?_⟩
  · have h1 : (Lexer.handleError "Unterminated string" st2.stringStartLine st2.stringStartColumn
        st2).errors = st2.errors + 1 := rfl
    rw [h1, he, hBe]
  · have h1 : (Lexer.handleError "Unterminated string" st2.stringStartLine st2.stringStartColumn
        st2).logs = st2.logs ++
        [Lexer.errLog st2.stringStartLine st2.stringStartColumn "Unterminated string"] := rfl
    rw [h1, hs1v, hs2v, hlogs, hBlogs]
    simp
  · have hb : (LLevel.DEBUG == LLevel.ERROR) = false := rfl
    rw [← hcount]
    simp [List.filter, hqdef, hdq, hb]

/-- C10 (witness): the amended statement applied to the input `"a1`. -/
theorem C10_witness :
    ∃ st2 toks2,
      Lexer.handleString 10 (Lexer.lexInit ['"', 'a', '1']) [] = Option.some (st2, toks2) ∧
      st2.errors = (Lexer.lexInit ['"', 'a', '1']).errors +
        nonLetterCount ((Lexer.lexInit ['"', 'a', '1']).input.drop
          ((Lexer.lexInit ['"', 'a', '1']).position + 1)) + 1 ∧
      ∃ mid, st2.logs = (Lexer.lexInit ['"', 'a', '1']).logs ++ mid ++
          [Lexer.errLog (Lexer.lexInit ['"', 'a', '1']).line (Lexer.lexInit ['"', 'a', '1']).column
            "Unterminated string"] ∧
        (mid.filter fun l => l.level == LLevel.ERROR).length =
          nonLetterCount ((Lexer.lexInit ['"', 'a', '1']).input.drop
            ((Lexer.lexInit ['"', 'a', '1']).position + 1)) :=
  C10_amended (Lexer.lexInit ['"', 'a', '1']) [] 10 (by decide) (by decide) (by decide)

/-- C10 (counterexample): on the input `"1` (quote, digit, end of input) the
string handler records **two** errors — an invalid-character error at the
digit and the unterminated-string error at the opening quote — refuting
"exactly one ERROR for that string". -/
theorem C10_counterexample :
    ((Lexer.handleString 10 (Lexer.lexInit ['"', '1']) []).map fun r => r.1.errors) =
      Option.some 2 ∧
    ((Lexer.handleString 10 (Lexer.lexInit ['"', '1']) []).map fun r =>
        (r.1.logs.filter fun l => l.level == LLevel.ERROR).map fun l => l.message) =
      Option.some
        ["Lexer - Error:1:2 Invalid character '1' in string, only lowercase a-z allowed",
         "Lexer - Error:1:1 Unterminated string"] ∧
    ¬ ((Lexer.handleString 10 (Lexer.lexInit ['"', '1']) []).map fun r => r.1.errors) =
        Option.some 1 := by
  refine ⟨by decide, by decide, by decide⟩

/-! ## C9: the scoping theorems -/

/-- Every node has positive size. -/
theorem anSize_pos (a : AN) : 1 ≤ anSize a := by
  cases a <;> simp [anSize]

/-- `addSymbol` written as a single conditional over `entriesOf`. -/
theorem addSymbol_eq (name ty : String) (line column : Nat) (st : SemSt) :
    SemanticAnalyzer.addSymbol name ty line column st =
      if (entriesOf st name).any (fun e => e.scope == st.currentScope) then
        SemanticAnalyzer.addError (SemanticAnalyzer.redeclMsg name) line column st
      else
        { st with symbolTable := (SemanticAnalyzer.tset st.symbolTable name
            ((entriesOf st name) ++
              [⟨name, ty, st.currentScope, line, column, false, false⟩])) } := rfl

/-- `tlookup` on a cons cell. -/
theorem tlookup_cons (p : String × List STE) (t : List (String × List STE)) (k : String) :
    SemanticAnalyzer.tlookup (p :: t) k =
      if (p.1 == k) = true then Option.some p.2 else SemanticAnalyzer.tlookup t k := by
  unfold SemanticAnalyzer.tlookup
  cases hc : p.1 == k
  · simp [List.find?, hc]
  · simp [List.find?, hc]

/-- `tset` updates `tlookup` pointwise. -/
theorem tlookup_tset (t : List (String × List STE)) (k : String) (v : List STE) :
    ∀ k', SemanticAnalyzer.tlookup (SemanticAnalyzer.tset t k v) k' =
      if k' = k then Option.some v else SemanticAnalyzer.tlookup t k' := by
  induction t with
  | nil =>
    intro k'
    show SemanticAnalyzer.tlookup [(k, v)] k' = _
    rw [tlookup_cons]
    by_cases h : k' = k
    · rw [if_pos (beq_iff_eq.mpr h.symm), if_pos h]
    · rw [if_neg (fun hc => h (beq_iff_eq.mp hc).symm), if_neg h]
  | cons p rest ih =>
    intro k'
    cases hpk : p.1 == k
    · have hset : SemanticAnalyzer.tset (p :: rest) k v = p :: SemanticAnalyzer.tset rest k v := by
        simp [SemanticAnalyzer.tset, hpk]
      rw [hset, tlookup_cons, tlookup_cons, ih]
      by_cases h : k' = k
      · have hq : (p.1 == k') = false := by
          cases hc : p.1 == k'
          · rfl
          · exact absurd (beq_iff_eq.mpr ((beq_iff_eq.mp hc).trans h : p.1 = k))
              (by rw [hpk]; decide)
        rw [if_neg (by rw [hq]; decide), if_pos h, if_pos h]
      · simp [h]
    · have hp1 : p.1 = k := beq_iff_eq.mp hpk
      have hset : SemanticAnalyzer.tset (p :: rest) k v = (k, v) :: rest := by
        simp [SemanticAnalyzer.tset, hpk]
      rw [hset, tlookup_cons, tlookup_cons]
      by_cases h : k' = k
      · simp [h]
      · have h1 : ((k, v).1 == k') = false := by
          cases hc : (k, v).1 == k'
          · rfl
          · exact absurd (beq_iff_eq.mp hc).symm h
        have h2 : (p.1 == k') = false := by
          cases hc : p.1 == k'
          · rfl
          · exact absurd ((hp1 ▸ beq_iff_eq.mp hc : k = k')).symm h
        simp [h, h1, h2]

/-- `updAt` with a scope-preserving update keeps the scope list. -/
theorem updAt_map_scope (f : STE → STE) (hf : ∀ e, (f e).scope = e.scope) :
    ∀ (l : List STE) (j : Nat),
      (SemanticAnalyzer.updAt l j f).map STE.scope = l.map STE.scope := by
  intro l
  induction l with
  | nil => intro j; rfl
  | cons e t ih =>
    intro j
    cases j with
    | zero => simp [SemanticAnalyzer.updAt, hf]
    | succ j => simp [SemanticAnalyzer.updAt, ih]

/-- `addSymbol` preserves the scoping invariant. -/
theorem TableOK_addSymbol (name ty : String) (line column : Nat) (st : SemSt)
    (h : TableOK st.symbolTable) :
    TableOK (SemanticAnalyzer.addSymbol name ty line column st).symbolTable := by
  rw [addSymbol_eq]
  cases hg : (entriesOf st name).any (fun e => e.scope == st.currentScope) with
  | true => simpa using h
  | false =>
    simp only [Bool.false_eq_true, if_false]
    intro n l hl
    have hl2 : SemanticAnalyzer.tlookup (SemanticAnalyzer.tset st.symbolTable name
        ((entriesOf st name) ++
          [⟨name, ty, st.currentScope, line, column, false, false⟩])) n =
        Option.some l := hl
    rw [tlookup_tset] at hl2
    have hl := hl2
    by_cases hn : n = name
    · rw [if_pos hn] at hl
      cases hl
      rw [List.map_append]
      have hnodup : ((entriesOf st name).map STE.scope).Nodup := by
        unfold entriesOf
        cases hlk : SemanticAnalyzer.tlookup st.symbolTable name with
        | none => simp
        | some l0 => simpa using h name l0 hlk
      have hnotin : st.currentScope ∉ (entriesOf st name).map STE.scope := by
        intro hc
        obtain ⟨e, he, hesc⟩ := List.mem_map.mp hc
        have : (entriesOf st name).any (fun e => e.scope == st.currentScope) = true :=
          List.any_eq_true.mpr ⟨e, he, beq_iff_eq.mpr hesc⟩
        rw [hg] at this
        exact absurd this (by decide)
      simp [List.nodup_append, hnodup, hnotin]
    · rw [if_neg hn] at hl
      exact h n l hl

/-- `markInitialized` preserves the scoping invariant. -/
theorem TableOK_markInitialized (name : String) (st : SemSt)
    (h : TableOK st.symbolTable) :
    TableOK (SemanticAnalyzer.markInitialized name st).symbolTable := by
  unfold SemanticAnalyzer.markInitialized
  cases hj : SemanticAnalyzer.getSymbolIdx name st with
  | none => exact h
  | some j =>
    cases hlk : SemanticAnalyzer.tlookup st.symbolTable name with
    | none => exact h
    | some entries =>
      intro n l hl
      have hl2 : SemanticAnalyzer.tlookup (SemanticAnalyzer.tset st.symbolTable name
          (SemanticAnalyzer.updAt entries j (fun e => { e with isInitialized := true }))) n =
          Option.some l := hl
      rw [tlookup_tset] at hl2
      have hl := hl2
      by_cases hn : n = name
      · rw [if_pos hn] at hl
        cases hl
        rw [updAt_map_scope (fun e => { e with isInitialized := true }) (fun e => rfl)]
        exact h name entries hlk
      · rw [if_neg hn] at hl
        exact h n l hl

/-- `markUsed` preserves the scoping invariant. -/
theorem TableOK_markUsed (name : String) (st : SemSt) (h : TableOK st.symbolTable) :
    TableOK (SemanticAnalyzer.markUsed name st).symbolTable := by
  unfold SemanticAnalyzer.markUsed
  cases hj : SemanticAnalyzer.getSymbolIdx name st with
  | none => exact h
  | some j =>
    cases hlk : SemanticAnalyzer.tlookup st.symbolTable name with
    | none => exact h
    | some entries =>
      intro n l hl
      have hl2 : SemanticAnalyzer.tlookup (SemanticAnalyzer.tset st.symbolTable name
          (SemanticAnalyzer.updAt entries j (fun e => { e with isUsed := true }))) n =
          Option.some l := hl
      rw [tlookup_tset] at hl2
      have hl := hl2
      by_cases hn : n = name
      · rw [if_pos hn] at hl
        cases hl
        rw [updAt_map_scope (fun e => { e with isUsed := true }) (fun e => rfl)]
        exact h name entries hlk
      · rw [if_neg hn] at hl
        exact h n l hl

/-- The sweep never touches the symbol table. -/
theorem sweepTable_table (t : List (String × List STE)) (st : SemSt) :
    (SemanticAnalyzer.sweepTable t st).symbolTable = st.symbolTable := by
  obtain ⟨ws, heq, _⟩ := sweepTable_spec t st
  rw [heq]

/-- `exitScope` never touches the symbol table. -/
theorem exitScope_table (st : SemSt) :
    (SemanticAnalyzer.exitScope st).symbolTable = st.symbolTable := by
  show (SemanticAnalyzer.checkForUnusedVariables st.currentScope st).symbolTable =
    st.symbolTable
  exact sweepTable_table _ _

/-- `finishAssign` never touches the symbol table. -/
theorem finishAssign_table (sym : STE) (t : String) (line column : Nat) (st : SemSt) :
    (SemanticAnalyzer.finishAssign sym t line column st).2.symbolTable = st.symbolTable := by
  unfold SemanticAnalyzer.finishAssign
  split <;> rfl

/-- Unfolding of the analysis pass on a while statement. -/
theorem anWhile_eq (line column : Nat) (cond body : AN) (ch : ANsOpt) (st : SemSt) :
    SemanticAnalyzer.analyzeNode (.whileS line column cond body ch) st =
      (match SemanticAnalyzer.analyzeNode cond st with
       | (condT, st1) =>
         let st2 := if condT ≠ Option.some "boolean" then
             SemanticAnalyzer.addError
               s!"While condition must be boolean, got {SemanticAnalyzer.optTypeStr condT}"
               line column st1
           else st1
         ((Option.none : Option String), (SemanticAnalyzer.analyzeNode body st2).2)) := rfl

/-- Unfolding of the analysis pass on an if statement without else branch. -/
theorem anIf_none_eq (line column : Nat) (cond thenB : AN) (st : SemSt) :
    SemanticAnalyzer.analyzeNode (.ifS line column cond thenB .none) st =
      (match SemanticAnalyzer.analyzeNode cond st with
       | (condT, st1) =>
         let st2 := if condT ≠ Option.some "boolean" then
             SemanticAnalyzer.addError
               s!"If condition must be boolean, got {SemanticAnalyzer.optTypeStr condT}"
               line column st1
           else st1
         ((Option.none : Option String), (SemanticAnalyzer.analyzeNode thenB st2).2)) := rfl

/-- Unfolding of the analysis pass on an if statement with an else branch. -/
theorem anIf_some_eq (line column : Nat) (cond thenB e : AN) (st : SemSt) :
    SemanticAnalyzer.analyzeNode (.ifS line column cond thenB (.some e)) st =
      (match SemanticAnalyzer.analyzeNode cond st with
       | (condT, st1) =>
         let st2 := if condT ≠ Option.some "boolean" then
             SemanticAnalyzer.addError
               s!"If condition must be boolean, got {SemanticAnalyzer.optTypeStr condT}"
               line column st1
           else st1
         ((Option.none : Option String), (SemanticAnalyzer.analyzeNode e
           (SemanticAnalyzer.analyzeNode thenB st2).2).2)) := rfl

/-- Unfolding of the analysis pass on a binary expression. -/
theorem anBin_eq (line column : Nat) (op : String) (l r : AN) (st : SemSt) :
    SemanticAnalyzer.analyzeNode (.binExpr line column op l r) st =
      (match SemanticAnalyzer.analyzeNode l st with
       | (lt, st1) =>
         match SemanticAnalyzer.analyzeNode r st1 with
         | (rt, st2) =>
           if op = "+" then
             if lt = Option.some "int" ∧ rt = Option.some "int" then (Option.some "int", st2)
             else if lt = Option.some "string" ∧ rt = Option.some "string" then
               (Option.some "string", st2)
             else
               (lt, SemanticAnalyzer.addError
                 s!"Type mismatch for operator \x27+\x27: cannot combine {SemanticAnalyzer.optTypeStr lt} and {SemanticAnalyzer.optTypeStr rt}"
                 line column st2)
           else if op = "==" ∨ op = "!=" then
             if lt ≠ rt then
               (Option.some "boolean",
                 SemanticAnalyzer.addError
                   s!"Cannot compare {SemanticAnalyzer.optTypeStr lt} with {SemanticAnalyzer.optTypeStr rt}"
                   line column st2)
             else (Option.some "boolean", st2)
           else
             ((Option.none : Option String),
               SemanticAnalyzer.addError s!"Unknown operator: {op}" line column st2)) := rfl

/-- Unfolding of the analysis pass on an identifier. -/
theorem anIdent_eq (line column : Nat) (n : String) (st : SemSt) :
    SemanticAnalyzer.analyzeNode (.identN line column n) st =
      (match SemanticAnalyzer.getSymbol n st with
       | Option.none =>
         ((Option.none : Option String),
           SemanticAnalyzer.addError s!"Undefined variable \x27{n}\x27" line column st)
       | Option.some symbol =>
         (Option.some symbol.type, SemanticAnalyzer.markUsed n st)) := rfl

/-- `asgLit` preserves the scoping invariant. -/
theorem TableOK_asgLit (name ty : String) (line column : Nat) (st : SemSt)
    (h : TableOK st.symbolTable) :
    TableOK (SemanticAnalyzer.asgLit name ty line column st).2.symbolTable := by
  unfold SemanticAnalyzer.asgLit
  split
  · exact h
  · rw [finishAssign_table]
    exact TableOK_markInitialized name st h

/-- `asgIdent` preserves the scoping invariant. -/
theorem TableOK_asgIdent (name : String) (line column : Nat) (en : String) (st : SemSt)
    (h : TableOK st.symbolTable) :
    TableOK (SemanticAnalyzer.asgIdent name line column en st).2.symbolTable := by
  unfold SemanticAnalyzer.asgIdent
  split
  · exact h
  · dsimp only
    split
    · exact TableOK_markInitialized name st h
    · rw [finishAssign_table]
      exact TableOK_markInitialized name st h

/-- The analysis pass preserves the scoping invariant (size-bounded form). -/
theorem analyze_preserves (n : Nat) :
    (∀ (a : AN) (st : SemSt), anSize a ≤ n → TableOK st.symbolTable →
      TableOK (SemanticAnalyzer.analyzeNode a st).2.symbolTable) ∧
    (∀ (cs : ANs) (st : SemSt), ansSize cs ≤ n → TableOK st.symbolTable →
      TableOK (SemanticAnalyzer.analyzeList cs st).symbolTable) := by
  induction n with
  | zero =>
    constructor
    · intro a st hsz
      exact absurd hsz (by have := anSize_pos a; omega)
    · intro cs st hsz h
      cases cs with
      | nil => exact h
      | cons hd tl =>
        exact absurd hsz (by have := anSize_pos hd; simp [ansSize]; omega)
  | succ n ih =>
    obtain ⟨ihN, ihL⟩ := ih
    have hN : ∀ (a : AN) (st : SemSt), anSize a ≤ n + 1 → TableOK st.symbolTable →
        TableOK (SemanticAnalyzer.analyzeNode a st).2.symbolTable := by
      intro a st hsz h
      cases a with
      | program l c cs =>
        exact ihL cs st (by simp [anSize] at hsz; omega) h
      | blockN l c cs =>
        show TableOK (SemanticAnalyzer.exitScope
          (SemanticAnalyzer.analyzeList cs (SemanticAnalyzer.enterScope st))).symbolTable
        rw [exitScope_table]
        exact ihL cs _ (by simp [anSize] at hsz; omega) h
      | varDecl l c cs vt vn =>
        exact TableOK_addSymbol vn vt l c st h
      | assignS l c idN exN =>
        have hsub : anSize exN ≤ n := by
          have := anSize_pos idN
          simp [anSize] at hsz
          omega
        have hdef : ∀ (b : AN), anSize b ≤ n →
            TableOK (match SemanticAnalyzer.getSymbol (SemanticAnalyzer.identKey idN) st with
              | Option.none =>
                ((Option.none : Option String), SemanticAnalyzer.addError
                  s!"Assignment to undeclared variable \x27{SemanticAnalyzer.identKey idN}\x27"
                  l c st)
              | Option.some symbol =>
                match SemanticAnalyzer.analyzeNode b
                    (SemanticAnalyzer.markInitialized (SemanticAnalyzer.identKey idN) st) with
                | (t, st2) =>
                  SemanticAnalyzer.finishAssign symbol (t.getD "unknown") l c st2
              ).2.symbolTable := by
          intro b hb
          cases hg : SemanticAnalyzer.getSymbol (SemanticAnalyzer.identKey idN) st with
          | none => exact h
          | some symbol =>
            dsimp only
            rcases hp : SemanticAnalyzer.analyzeNode b
                (SemanticAnalyzer.markInitialized (SemanticAnalyzer.identKey idN) st) with
              ⟨t, st2⟩
            dsimp only
            rw [finishAssign_table]
            have hr := ihN b
              (SemanticAnalyzer.markInitialized (SemanticAnalyzer.identKey idN) st) hb
              (TableOK_markInitialized (SemanticAnalyzer.identKey idN) st h)
            rw [hp] at hr
            exact hr
        cases exN with
        | strLit l2 c2 v => exact TableOK_asgLit (SemanticAnalyzer.identKey idN) "string" l c st h
        | intLit l2 c2 v => exact TableOK_asgLit (SemanticAnalyzer.identKey idN) "int" l c st h
        | boolLit l2 c2 v =>
          exact TableOK_asgLit (SemanticAnalyzer.identKey idN) "boolean" l c st h
        | identN l2 c2 en => exact TableOK_asgIdent (SemanticAnalyzer.identKey idN) l c en st h
        | program l2 c2 cs => exact hdef (.program l2 c2 cs) hsub
        | blockN l2 c2 cs => exact hdef (.blockN l2 c2 cs) hsub
        | varDecl l2 c2 cs vt vn => exact hdef (.varDecl l2 c2 cs vt vn) hsub
        | assignS l2 c2 i2 e2 => exact hdef (.assignS l2 c2 i2 e2) hsub
        | printS l2 c2 e2 => exact hdef (.printS l2 c2 e2) hsub
        | whileS l2 c2 cnd bd ch => exact hdef (.whileS l2 c2 cnd bd ch) hsub
        | ifS l2 c2 cnd tb eb => exact hdef (.ifS l2 c2 cnd tb eb) hsub
        | binExpr l2 c2 op lhs rhs => exact hdef (.binExpr l2 c2 op lhs rhs) hsub
      | printS l c e =>
        exact ihN e st (by simp [anSize] at hsz; omega) h
      | whileS l c cnd bd ch =>
        rw [anWhile_eq]
        rcases hp : SemanticAnalyzer.analyzeNode cnd st with ⟨condT, st1⟩
        dsimp only
        have h1 : TableOK st1.symbolTable := by
          have hr := ihN cnd st (by simp [anSize] at hsz; omega) h
          rw [hp] at hr
          exact hr
        have h2 : TableOK (if condT ≠ Option.some "boolean" then
            SemanticAnalyzer.addError
              s!"While condition must be boolean, got {SemanticAnalyzer.optTypeStr condT}"
              l c st1 else st1).symbolTable := by
          split
          · exact h1
          · exact h1
        exact ihN bd _ (by simp [anSize] at hsz; omega) h2
      | ifS l c cnd tb eb =>
        cases eb with
        | none =>
          rw [anIf_none_eq]
          rcases hp : SemanticAnalyzer.analyzeNode cnd st with ⟨condT, st1⟩
          dsimp only
          have h1 : TableOK st1.symbolTable := by
            have hr := ihN cnd st (by simp [anSize] at hsz; omega) h
            rw [hp] at hr
            exact hr
          have h2 : TableOK (if condT ≠ Option.some "boolean" then
              SemanticAnalyzer.addError
                s!"If condition must be boolean, got {SemanticAnalyzer.optTypeStr condT}"
                l c st1 else st1).symbolTable := by
            split
            · exact h1
            · exact h1
          exact ihN tb _ (by simp [anSize] at hsz; omega) h2
        | some e =>
          rw [anIf_some_eq]
          rcases hp : SemanticAnalyzer.analyzeNode cnd st with ⟨condT, st1⟩
          dsimp only
          have h1 : TableOK st1.symbolTable := by
            have hr := ihN cnd st (by simp [anSize] at hsz; omega) h
            rw [hp] at hr
            exact hr
          have h2 : TableOK (if condT ≠ Option.some "boolean" then
              SemanticAnalyzer.addError
                s!"If condition must be boolean, got {SemanticAnalyzer.optTypeStr condT}"
                l c st1 else st1).symbolTable := by
            split
            · exact h1
            · exact h1
          have h3 := ihN tb _ (by simp [anSize] at hsz; omega) h2
          exact ihN e _ (by simp [anSize, anoSize] at hsz; omega) h3
      | binExpr l c op lhs rhs =>
        rw [anBin_eq]
        rcases hp : SemanticAnalyzer.analyzeNode lhs st with ⟨lt, st1⟩
        dsimp only
        have h1 : TableOK st1.symbolTable := by
          have hr := ihN lhs st (by simp [anSize] at hsz; omega) h
          rw [hp] at hr
          exact hr
        rcases hq : SemanticAnalyzer.analyzeNode rhs st1 with ⟨rt, st2⟩
        dsimp only
        have h2 : TableOK st2.symbolTable := by
          have hr := ihN rhs st1 (by simp [anSize] at hsz; omega) h1
          rw [hq] at hr
          exact hr
        split
        · split
          · exact h2
          · split
            · exact h2
            · exact h2
        · split
          · split
            · exact h2
            · exact h2
          · exact h2
      | identN l c n2 =>
        rw [anIdent_eq]
        cases hg : SemanticAnalyzer.getSymbol n2 st with
        | none => exact h
        | some symbol =>
          dsimp only
          exact TableOK_markUsed n2 st h
      | intLit l c v => exact h
      | strLit l c v => exact h
      | boolLit l c v => exact h
    refine ⟨hN, ?_⟩
    intro cs st hsz h
    cases cs with
    | nil => exact h
    | cons hd tl =>
      refine ihL tl _ ?_ (hN hd st ?_ h)
      · have := anSize_pos hd
        simp [ansSize] at hsz
        omega
      · simp [ansSize] at hsz
        omega

/-- The empty table satisfies the invariant, hence so does every analysis
run. -/
theorem TableOK_analyzeRun (ast : Option AN) :
    TableOK (SemanticAnalyzer.analyzeRun ast).symbolTable := by
  have hempty : TableOK ([] : List (String × List STE)) := by
    intro n l hl
    simp [SemanticAnalyzer.tlookup, List.find?] at hl
  cases ast with
  | none => exact hempty
  | some a =>
    show TableOK (SemanticAnalyzer.checkForUnusedVariables 0
      (SemanticAnalyzer.analyzeNode a SemanticAnalyzer.analyzerInit).2).symbolTable
    rw [show (SemanticAnalyzer.checkForUnusedVariables 0
        (SemanticAnalyzer.analyzeNode a SemanticAnalyzer.analyzerInit).2).symbolTable =
      (SemanticAnalyzer.sweepTable
        (SemanticAnalyzer.analyzeNode a SemanticAnalyzer.analyzerInit).2.symbolTable
        (SemanticAnalyzer.analyzeNode a SemanticAnalyzer.analyzerInit).2).symbolTable
      from rfl, sweepTable_table]
    exact (analyze_preserves (anSize a)).1 a SemanticAnalyzer.analyzerInit le_rfl hempty

/-- C9: declaring a name that already has an entry at the current scope takes
the error path (the redeclaration ERROR, no insertion); `enterScope` hands out
the incremented counter as a fresh scope ID, and under it a declaration whose
existing entries all live in enclosing (lower-numbered) scopes inserts without
recording any issue; consequently, for every analysis run, no two entries of
one name share a scope ID — within a single scope no two entries share a
name. -/
theorem C9_theorem :
    (∀ (st : SemSt) (name ty : String) (line column : Nat),
      (∃ e ∈ entriesOf st name, e.scope = st.currentScope) →
      SemanticAnalyzer.addSymbol name ty line column st =
        SemanticAnalyzer.addError (SemanticAnalyzer.redeclMsg name) line column st) ∧
    (∀ st : SemSt, (SemanticAnalyzer.enterScope st).currentScope = st.currentScope + 1) ∧
    (∀ (st : SemSt) (name ty : String) (line column : Nat),
      (∀ e ∈ entriesOf st name, e.scope ≤ st.currentScope) →
      (SemanticAnalyzer.addSymbol name ty line column
          (SemanticAnalyzer.enterScope st)).issues = st.issues ∧
      SemanticAnalyzer.tlookup
          (SemanticAnalyzer.addSymbol name ty line column
            (SemanticAnalyzer.enterScope st)).symbolTable name =
        Option.some (entriesOf st name ++
          [⟨name, ty, st.currentScope + 1, line, column, false, false⟩])) ∧
    (∀ (ast : Option AN) (name : String) (l : List STE),
      SemanticAnalyzer.tlookup (SemanticAnalyzer.analyzeRun ast).symbolTable name =
        Option.some l → (l.map STE.scope).Nodup) := by
  refine ⟨?_, fun st => rfl, ?_, fun ast name l hl => TableOK_analyzeRun ast name l hl⟩
  · intro st name ty line column hex
    obtain ⟨e, hmem, hsc⟩ := hex
    have hany : ((entriesOf st name).any fun e => e.scope == st.currentScope) = true :=
      List.any_eq_true.mpr ⟨e, hmem, beq_iff_eq.mpr hsc⟩
    rw [addSymbol_eq, if_pos hany]
  · intro st name ty line column hall
    have hent : entriesOf (SemanticAnalyzer.enterScope st) name = entriesOf st name := rfl
    have hguard : (entriesOf (SemanticAnalyzer.enterScope st) name).any
        (fun e => e.scope == (SemanticAnalyzer.enterScope st).currentScope) = false := by
      rw [hent]
      cases hc : (entriesOf st name).any
          (fun e => e.scope == (SemanticAnalyzer.enterScope st).currentScope) with
      | false => rfl
      | true =>
        obtain ⟨e, hmem, hbe⟩ := List.any_eq_true.mp hc
        have h1 : e.scope = st.currentScope + 1 := beq_iff_eq.mp hbe
        have h2 := hall e hmem
        omega
    rw [addSymbol_eq, hguard]
    simp only [Bool.false_eq_true, if_false]
    refine ⟨rfl, ?_⟩
    show SemanticAnalyzer.tlookup (SemanticAnalyzer.tset st.symbolTable name
        ((entriesOf st name) ++
          [⟨name, ty, st.currentScope + 1, line, column, false, false⟩])) name =
      Option.some (entriesOf st name ++
        [⟨name, ty, st.currentScope + 1, line, column, false, false⟩])
    rw [tlookup_tset, if_pos rfl]

/-- C9 (witness): with `a` already declared at the current scope 1, a second
declaration of `a` is the redeclaration error; after entering scope 2 the
declaration inserts a second entry with the fresh scope ID and no issue; and
the run on the shadowing program `{ int a { int a } }$` yields entries of
pairwise distinct scope. -/
theorem C9_witness :
    (SemanticAnalyzer.addSymbol "a" "int" 2 3
        ⟨1, [-1, 1], [("a", [⟨"a", "int", 1, 1, 3, false, false⟩])], []⟩ =
      SemanticAnalyzer.addError (SemanticAnalyzer.redeclMsg "a") 2 3
        ⟨1, [-1, 1], [("a", [⟨"a", "int", 1, 1, 3, false, false⟩])], []⟩) ∧
    ((SemanticAnalyzer.addSymbol "a" "int" 2 3
        (SemanticAnalyzer.enterScope
          ⟨1, [-1, 1], [("a", [⟨"a", "int", 1, 1, 3, false, false⟩])], []⟩)).issues = [] ∧
      SemanticAnalyzer.tlookup
          (SemanticAnalyzer.addSymbol "a" "int" 2 3
            (SemanticAnalyzer.enterScope
              ⟨1, [-1, 1], [("a", [⟨"a", "int", 1, 1, 3, false, false⟩])], []⟩)).symbolTable
          "a" =
        Option.some [⟨"a", "int", 1, 1, 3, false, false⟩,
          ⟨"a", "int", 2, 2, 3, false, false⟩]) ∧
    (([⟨"a", "int", 2, 1, 3, false, false⟩,
        ⟨"a", "int", 3, 1, 11, false, false⟩] : List STE).map STE.scope).Nodup := by
  refine ⟨?_, ⟨?_, ?_⟩, ?_⟩
  · exact C9_theorem.1 _ "a" "int" 2 3
      ⟨⟨"a", "int", 1, 1, 3, false, false⟩, by decide, by decide⟩
  · exact (C9_theorem.2.2.1 ⟨1, [-1, 1], [("a", [⟨"a", "int", 1, 1, 3, false, false⟩])], []⟩
      "a" "int" 2 3 (by decide)).1
  · exact ((C9_theorem.2.2.1 ⟨1, [-1, 1], [("a", [⟨"a", "int", 1, 1, 3, false, false⟩])], []⟩
      "a" "int" 2 3 (by decide)).2).trans (by decide)
  · exact C9_theorem.2.2.2 (Option.some astShadow) "a"
      [⟨"a", "int", 2, 1, 3, false, false⟩, ⟨"a", "int", 3, 1, 11, false, false⟩]
      (by decide)

/-! ## C2: the while-statement theorems -/

/-- `convertNode` unfolds to its dispatch body. -/
theorem convertNode_eq (name : String) (tok : Option Tok) (ch : CSTNs) :
    ASTAdapter.convertNode (.mk name tok ch) = ASTAdapter.convertNodeBody name tok ch := rfl

/-- One step of `convertStmts`. -/
theorem convertStmts_cons (c : CSTN) (rest : CSTNs) :
    ASTAdapter.convertStmts (.cons c rest) =
      ASTAdapter.consIf (ASTAdapter.convertNode c) (ASTAdapter.convertStmts rest) := rfl

/-- One step of `convertProgChildren`. -/
theorem convertProgChildren_cons (c : CSTN) (rest : CSTNs) :
    ASTAdapter.convertProgChildren (.cons c rest) =
      (if c.nameC = "Block" ∨ ASTAdapter.isStatementNode c then
        ASTAdapter.consIf (ASTAdapter.convertNode c) (ASTAdapter.convertProgChildren rest)
      else ASTAdapter.convertProgChildren rest) := rfl

/-- One step of `findSLConvert`. -/
theorem findSLConvert_cons (cn : String) (t : Option Tok) (cch rest : CSTNs) :
    ASTAdapter.findSLConvert (.cons (.mk cn t cch) rest) =
      (if cn = "StatementList" then ASTAdapter.convertStmts cch
      else ASTAdapter.findSLConvert rest) := rfl

/-- One step of `scanPrintExpr`. -/
theorem scanPrintExpr_cons (c : CSTN) (rest : CSTNs) :
    ASTAdapter.scanPrintExpr (.cons c rest) =
      (if c.nameC = "Expression" ∨ c.nameC = "StringExpression" then ASTAdapter.convertNode c
      else ASTAdapter.scanPrintExpr rest) := rfl

/-- One step of `scanAssign`. -/
theorem scanAssign_cons (line column : Nat) (c : CSTN) (rest : CSTNs) (idA exA : Option AN) :
    ASTAdapter.scanAssign line column (.cons c rest) idA exA =
      (if c.nameC = "Identifier" then
        ASTAdapter.scanAssign line column rest (ASTAdapter.convertNode c) exA
      else if c.nameC = "Expression" then
        ASTAdapter.scanAssign line column rest idA (ASTAdapter.convertNode c)
      else if c.nameC = "StringExpression" then
        ASTAdapter.scanAssign line column rest idA
          (Option.some (ASTAdapter.convertStringExpression c line column))
      else ASTAdapter.scanAssign line column rest idA exA) := rfl

/-- One step of `scanIf`. -/
theorem scanIf_cons (c : CSTN) (rest : CSTNs) (prev : Option String)
    (condA thenA elseA : Option AN) :
    ASTAdapter.scanIf (.cons c rest) prev condA thenA elseA =
      (if c.nameC = "BooleanExpression" then
        ASTAdapter.scanIf rest (Option.some c.nameC) (ASTAdapter.convertNode c) thenA elseA
      else if c.nameC = "Block" then
        ASTAdapter.scanIf rest (Option.some c.nameC) condA
          (ASTAdapter.keepFirst thenA (ASTAdapter.convertNode c))
          (ASTAdapter.pickElse thenA prev elseA (ASTAdapter.convertNode c))
      else ASTAdapter.scanIf rest (Option.some c.nameC) condA thenA elseA) := rfl

/-- One step of `scanBool`. -/
theorem scanBool_cons (c : CSTN) (rest : CSTNs) (lA rA : Option AN) (op : String) :
    ASTAdapter.scanBool (.cons c rest) lA rA op =
      (if c.nameC = "Expression" then
        ASTAdapter.scanBool rest (ASTAdapter.keepFirst lA (ASTAdapter.convertNode c))
          (ASTAdapter.whenSet lA (ASTAdapter.convertNode c) rA) op
      else if c.nameC = "EqualsOp" then ASTAdapter.scanBool rest lA rA "=="
      else if c.nameC = "NotEqualsOp" then ASTAdapter.scanBool rest lA rA "!="
      else ASTAdapter.scanBool rest lA rA op) := rfl

/-- `visit` on a non-empty block. -/
theorem visit_block_cons (l c : Nat) (h : AN) (t : ANs) (s : GenSt) :
    CodeGenerator.visit (.blockN l c (.cons h t)) s =
      (match CodeGenerator.visitList (.cons h t) { s with currentScope := s.currentScope + 1 } with
       | .ok s2 => .ok { s2 with currentScope := s2.currentScope - 1 }
       | .error e => .error e) := rfl

/-- `visit` on a non-empty program. -/
theorem visit_program_cons (l c : Nat) (h : AN) (t : ANs) (s : GenSt) :
    CodeGenerator.visit (.program l c (.cons h t)) s =
      CodeGenerator.visitList (.cons h t) s := rfl

/-- One step of `visitList`. -/
theorem visit_list_cons (h : AN) (t : ANs) (s : GenSt) :
    CodeGenerator.visitList (.cons h t) s =
      (match CodeGenerator.visit h s with
       | .ok s2 => CodeGenerator.visitList t s2
       | .error e => .error e) := rfl

/-- `visit` on an if statement without else branch. -/
theorem visit_if_none (l c : Nat) (cond thenB : AN) (s : GenSt) :
    CodeGenerator.visit (.ifS l c cond thenB .none) s =
      (match CodeGenerator.generateComparisonCode cond s with
       | .error e => .error e
       | .ok s1 =>
         match CodeGenerator.visit thenB (CodeGenerator.emitByte 0x05 (CodeGenerator.emitByte 0xD0
             (CodeGenerator.emitCpx 0x0000 (CodeGenerator.emitLdxMem 0x0000
               (CodeGenerator.emitSta 0x0000 s1))))) with
         | .error e => .error e
         | .ok s2 => .ok s2) := rfl

/-- `visit` on an if statement with an else branch. -/
theorem visit_if_some (l c : Nat) (cond thenB els : AN) (s : GenSt) :
    CodeGenerator.visit (.ifS l c cond thenB (.some els)) s =
      (match CodeGenerator.generateComparisonCode cond s with
       | .error e => .error e
       | .ok s1 =>
         match CodeGenerator.visit thenB (CodeGenerator.emitByte 0x05 (CodeGenerator.emitByte 0xD0
             (CodeGenerator.emitCpx 0x0000 (CodeGenerator.emitLdxMem 0x0000
               (CodeGenerator.emitSta 0x0000 s1))))) with
         | .error e => .error e
         | .ok s2 => CodeGenerator.visit els (CodeGenerator.emitByte 0x05
             (CodeGenerator.emitByte 0xD0 (CodeGenerator.emitByte 0x01
               (CodeGenerator.emitByte 0xA9 s2))))) := rfl

/-- Every CST node has positive size. -/
theorem cstSize_pos (c : CSTN) : 1 ≤ cstSize c := by
  cases c
  simp [cstSize]

/-- Expression leaves contain no while and satisfy the shape invariant. -/
theorem leaf_cw (a : AN) (h : isLeafA a = true) :
    containsWhile a = false ∧ goodW a = true := by
  cases a <;> simp [isLeafA] at h <;> simp [containsWhile, goodW]

/-- `exprPassOne` only produces leaves (size-bounded form). -/
theorem exprPassOne_leafAux : ∀ (n : Nat) (ch : CSTNs), cstsSize ch ≤ n → ∀ (l c : Nat) (a : AN),
    ASTAdapter.exprPassOne l c ch = Option.some a → isLeafA a = true := by
  intro n
  induction n with
  | zero =>
    intro ch hsz
    cases ch with
    | nil =>
      intro l c a h
      exact absurd h (by simp [ASTAdapter.exprPassOne])
    | cons hd rest =>
      exact absurd hsz (by have := cstSize_pos hd; simp [cstsSize]; omega)
  | succ n ih =>
    intro ch hsz
    cases ch with
    | nil =>
      intro l c a h
      exact absurd h (by simp [ASTAdapter.exprPassOne])
    | cons hd rest =>
      have hrest : cstsSize rest ≤ n := by
        have := cstSize_pos hd
        simp [cstsSize] at hsz
        omega
      intro l c a h
      obtain ⟨cn, t, cch⟩ := hd
      cases t with
      | some tk =>
        simp only [ASTAdapter.exprPassOne] at h
        split at h
        · cases h
          rfl
        · split at h
          · cases h
            rfl
          · split at h
            · cases h
              rfl
            · split at h
              · cases h
                rfl
              · split at h
                · cases h
                  rfl
                · exact ih rest hrest l c a h
      | none =>
        simp only [ASTAdapter.exprPassOne] at h
        split at h
        · cases h
          rfl
        · exact ih rest hrest l c a h

/-- `exprPassOne` only produces leaves. -/
theorem exprPassOne_leaf (ch : CSTNs) (l c : Nat) (a : AN)
    (h : ASTAdapter.exprPassOne l c ch = Option.some a) : isLeafA a = true :=
  exprPassOne_leafAux (cstsSize ch) ch le_rfl l c a h

/-- `exprPassTwo` only produces leaves (size-bounded form). -/
theorem exprPassTwo_leafAux : ∀ (n : Nat) (ch : CSTNs), cstsSize ch ≤ n → ∀ (l c : Nat) (a : AN),
    ASTAdapter.exprPassTwo l c ch = Option.some a → isLeafA a = true := by
  intro n
  induction n with
  | zero =>
    intro ch hsz
    cases ch with
    | nil =>
      intro l c a h
      exact absurd h (by simp [ASTAdapter.exprPassTwo])
    | cons hd rest =>
      exact absurd hsz (by have := cstSize_pos hd; simp [cstsSize]; omega)
  | succ n ih =>
    intro ch hsz
    cases ch with
    | nil =>
      intro l c a h
      exact absurd h (by simp [ASTAdapter.exprPassTwo])
    | cons hd rest =>
      have hrest : cstsSize rest ≤ n := by
        have := cstSize_pos hd
        simp [cstsSize] at hsz
        omega
      intro l c a h
      obtain ⟨cn, t, cch⟩ := hd
      cases t with
      | some tk =>
        simp only [ASTAdapter.exprPassTwo] at h
        split at h
        · cases h
          rfl
        · split at h
          · cases h
            rfl
          · cases h
            rfl
      | none =>
        simp only [ASTAdapter.exprPassTwo] at h
        exact ih rest hrest l c a h

/-- `exprPassTwo` only produces leaves. -/
theorem exprPassTwo_leaf (ch : CSTNs) (l c : Nat) (a : AN)
    (h : ASTAdapter.exprPassTwo l c ch = Option.some a) : isLeafA a = true :=
  exprPassTwo_leafAux (cstsSize ch) ch le_rfl l c a h

/-- `convertExpression` only produces leaves. -/
theorem convertExpression_leaf (ch : CSTNs) (l c : Nat) :
    isLeafA (ASTAdapter.convertExpression ch l c) = true := by
  unfold ASTAdapter.convertExpression
  cases h1 : ASTAdapter.exprPassOne l c ch with
  | some a => exact exprPassOne_leaf ch l c a h1
  | none =>
    cases h2 : ASTAdapter.exprPassTwo l c ch with
    | some a => exact exprPassTwo_leaf ch l c a h2
    | none => rfl

/-- `convertStringExpression` always yields a string literal. -/
theorem convertStringExpression_leaf (c : CSTN) (l col : Nat) :
    isLeafA (ASTAdapter.convertStringExpression c l col) = true := by
  unfold ASTAdapter.convertStringExpression
  split
  · split <;> rfl
  · rfl

/-- Conversion of an `Expression`, `StringExpression` or `Identifier` node is
a leaf. -/
theorem convertName_leaf (c : CSTN) (a : AN)
    (hn : c.nameC = "Expression" ∨ c.nameC = "StringExpression" ∨ c.nameC = "Identifier")
    (h : ASTAdapter.convertNode c = Option.some a) : isLeafA a = true := by
  obtain ⟨name, tok, ch⟩ := c
  simp only [CSTN.nameC] at hn
  rw [convertNode_eq] at h
  simp only [ASTAdapter.convertNodeBody] at h
  rcases hn with rfl | rfl | rfl
  · simp at h
    subst h
    exact convertExpression_leaf _ _ _
  · simp at h
    subst h
    exact convertStringExpression_leaf _ _ _
  · simp at h
    subst h
    rfl

/-- `Option.getD` of a leaf-or-nothing slot with a leaf default has no
while. -/
theorem getD_cw (o : Option AN) (d : AN) (ho : ∀ x, o = Option.some x → isLeafA x = true)
    (hd : isLeafA d = true) : containsWhile (o.getD d) = false := by
  cases o with
  | none => exact (leaf_cw d hd).1
  | some x => exact (leaf_cw x (ho x rfl)).1

/-- `Option.getD` of a while-free slot with a while-free default. -/
theorem getD_cwP (o : Option AN) (d : AN)
    (ho : ∀ x, o = Option.some x → containsWhile x = false)
    (hd : containsWhile d = false) : containsWhile (o.getD d) = false := by
  cases o with
  | none => exact hd
  | some x => exact ho x rfl

/-- `Option.getD` of a well-shaped slot with a well-shaped default. -/
theorem getD_gw (o : Option AN) (d : AN) (ho : ∀ x, o = Option.some x → goodW x = true)
    (hd : goodW d = true) : goodW (o.getD d) = true := by
  cases o with
  | none => exact hd
  | some x => exact ho x rfl

/-- Shape assembly for binary expressions. -/
theorem binExpr_good (l c : Nat) (op : String) (x y : AN)
    (hx : containsWhile x = false) (hy : containsWhile y = false) :
    containsWhile (.binExpr l c op x y) = false ∧ goodW (.binExpr l c op x y) = true := by
  simp [containsWhile, goodW, hx, hy]

/-- Shape assembly for print statements. -/
theorem printS_good (l c : Nat) (e : AN) (he : containsWhile e = false) :
    goodW (.printS l c e) = true := by
  simp [goodW, he]

/-- Shape assembly for assignments. -/
theorem assignS_good (l c : Nat) (i e : AN)
    (hi : containsWhile i = false) (he : containsWhile e = false) :
    goodW (.assignS l c i e) = true := by
  simp [goodW, hi, he]

/-- Shape assembly for if statements. -/
theorem ifS_good (l c : Nat) (cond t : AN) (e : ANOpt)
    (h1 : containsWhile cond = false) (h2 : goodW t = true) (h3 : goodWO e = true) :
    goodW (.ifS l c cond t e) = true := by
  simp [goodW, h1, h2, h3]

/-- `scanBool` accumulates only leaves (size-bounded form). -/
theorem scanBool_leafAux : ∀ (n : Nat) (ch : CSTNs), cstsSize ch ≤ n →
    ∀ (lA rA : Option AN) (op : String),
    (∀ x, lA = Option.some x → isLeafA x = true) →
    (∀ x, rA = Option.some x → isLeafA x = true) →
    (∀ x, (ASTAdapter.scanBool ch lA rA op).1 = Option.some x → isLeafA x = true) ∧
    (∀ x, (ASTAdapter.scanBool ch lA rA op).2.1 = Option.some x → isLeafA x = true) := by
  intro n
  induction n with
  | zero =>
    intro ch hsz
    cases ch with
    | nil => intro lA rA op hl hr; exact ⟨hl, hr⟩
    | cons hd rest => exact absurd hsz (by have := cstSize_pos hd; simp [cstsSize]; omega)
  | succ n ih =>
    intro ch hsz
    cases ch with
    | nil => intro lA rA op hl hr; exact ⟨hl, hr⟩
    | cons hd rest =>
      have hrest : cstsSize rest ≤ n := by
        have := cstSize_pos hd
        simp [cstsSize] at hsz
        omega
      intro lA rA op hl hr
      rw [scanBool_cons]
      split
      · next hexp =>
        refine ih rest hrest _ _ op ?_ ?_
        · intro x hx
          unfold ASTAdapter.keepFirst at hx
          cases hlA : lA with
          | some y =>
            rw [hlA] at hx
            cases hx
            exact hl _ hlA
          | none =>
            rw [hlA] at hx
            exact convertName_leaf hd x (Or.inl hexp) hx
        · intro x hx
          unfold ASTAdapter.whenSet at hx
          cases hlA : lA with
          | some y =>
            rw [hlA] at hx
            exact convertName_leaf hd x (Or.inl hexp) hx
          | none =>
            rw [hlA] at hx
            exact hr x hx
      · split
        · exact ih rest hrest lA rA "==" hl hr
        · split
          · exact ih rest hrest lA rA "!=" hl hr
          · exact ih rest hrest lA rA op hl hr

/-- Conversion of a `BooleanExpression` node: no while inside, good shape. -/
theorem bn_good (c : CSTN) (a : AN) (hn : c.nameC = "BooleanExpression")
    (h : ASTAdapter.convertNode c = Option.some a) :
    containsWhile a = false ∧ goodW a = true := by
  obtain ⟨name, tok, ch⟩ := c
  simp only [CSTN.nameC] at hn
  subst hn
  rw [convertNode_eq] at h
  simp only [ASTAdapter.convertNodeBody] at h
  simp at h
  subst h
  obtain ⟨hL, hR⟩ := scanBool_leafAux (cstsSize ch) ch le_rfl Option.none Option.none "=="
    (fun x hx => Option.noConfusion hx) (fun x hx => Option.noConfusion hx)
  exact binExpr_good _ _ _ _ _ (getD_cw _ _ hL rfl) (getD_cw _ _ hR rfl)

/-- `scanPrintExpr` only returns leaves (size-bounded form). -/
theorem scanPrint_leafAux : ∀ (n : Nat) (ch : CSTNs), cstsSize ch ≤ n → ∀ (a : AN),
    ASTAdapter.scanPrintExpr ch = Option.some a → isLeafA a = true := by
  intro n
  induction n with
  | zero =>
    intro ch hsz
    cases ch with
    | nil => intro a h; exact absurd h (by simp [ASTAdapter.scanPrintExpr])
    | cons hd rest => exact absurd hsz (by have := cstSize_pos hd; simp [cstsSize]; omega)
  | succ n ih =>
    intro ch hsz
    cases ch with
    | nil => intro a h; exact absurd h (by simp [ASTAdapter.scanPrintExpr])
    | cons hd rest =>
      have hrest : cstsSize rest ≤ n := by
        have := cstSize_pos hd
        simp [cstsSize] at hsz
        omega
      intro a h
      rw [scanPrintExpr_cons] at h
      split at h
      · next hname =>
        refine convertName_leaf hd a ?_ h
        rcases hname with h1 | h1
        · exact Or.inl h1
        · exact Or.inr (Or.inl h1)
      · exact ih rest hrest a h

/-- `scanAssign` accumulates only leaves (size-bounded form). -/
theorem scanAssign_leafAux : ∀ (n : Nat) (ch : CSTNs), cstsSize ch ≤ n →
    ∀ (line column : Nat) (idA exA : Option AN),
    (∀ x, idA = Option.some x → isLeafA x = true) →
    (∀ x, exA = Option.some x → isLeafA x = true) →
    (∀ x, (ASTAdapter.scanAssign line column ch idA exA).1 = Option.some x →
      isLeafA x = true) ∧
    (∀ x, (ASTAdapter.scanAssign line column ch idA exA).2 = Option.some x →
      isLeafA x = true) := by
  intro n
  induction n with
  | zero =>
    intro ch hsz
    cases ch with
    | nil => intro line column idA exA hi he; exact ⟨hi, he⟩
    | cons hd rest => exact absurd hsz (by have := cstSize_pos hd; simp [cstsSize]; omega)
  | succ n ih =>
    intro ch hsz
    cases ch with
    | nil => intro line column idA exA hi he; exact ⟨hi, he⟩
    | cons hd rest =>
      have hrest : cstsSize rest ≤ n := by
        have := cstSize_pos hd
        simp [cstsSize] at hsz
        omega
      intro line column idA exA hi he
      rw [scanAssign_cons]
      split
      · next hname =>
        refine ih rest hrest line column _ exA ?_ he
        intro x hx
        exact convertName_leaf hd x (Or.inr (Or.inr hname)) hx
      · split
        · next hname =>
          refine ih rest hrest line column idA _ hi ?_
          intro x hx
          exact convertName_leaf hd x (Or.inl hname) hx
        · split
          · refine ih rest hrest line column idA _ hi ?_
            intro x hx
            cases hx
            exact convertStringExpression_leaf _ _ _
          · exact ih rest hrest line column idA exA hi he

/-- `convertVarDeclaration` always satisfies the shape invariant: its
children are identifier leaves. -/
theorem varDecl_good (ch : CSTNs) (l c : Nat) :
    goodW (ASTAdapter.convertVarDeclaration ch l c) = true := by
  unfold ASTAdapter.convertVarDeclaration
  dsimp only
  cases ASTAdapter.findChild "Type" ch <;> cases ASTAdapter.findChild "Identifier" ch <;>
    simp [goodW, containsWhileS, containsWhile]

/-- `pickProg` of a well-shaped list is well-shaped. -/
theorem pickProg_good (l c : Nat) (ps : ANs) (h : goodWS ps = true) :
    goodW (ASTAdapter.pickProg l c ps) = true := by
  cases ps with
  | nil => simpa [ASTAdapter.pickProg, goodW] using h
  | cons p t =>
    cases t with
    | nil =>
      show goodW p = true
      simp [goodWS] at h
      exact h
    | cons q t2 => simpa [ASTAdapter.pickProg, goodW] using h

/-- `scanIf` accumulates a while-free condition and well-shaped branches,
assuming the adapter invariant up to size `N` for the `Block` children. -/
theorem scanIf_good (N : Nat)
    (ihA : ∀ cst, cstSize cst ≤ N → ∀ a, ASTAdapter.convertNode cst = Option.some a →
      goodW a = true) :
    ∀ (n : Nat) (ch : CSTNs), cstsSize ch ≤ n → cstsSize ch ≤ N →
    ∀ (prev : Option String) (condA thenA elseA : Option AN),
    (∀ x, condA = Option.some x → containsWhile x = false) →
    (∀ x, thenA = Option.some x → goodW x = true) →
    (∀ x, elseA = Option.some x → goodW x = true) →
    (∀ x, (ASTAdapter.scanIf ch prev condA thenA elseA).1 = Option.some x →
      containsWhile x = false) ∧
    (∀ x, (ASTAdapter.scanIf ch prev condA thenA elseA).2.1 = Option.some x →
      goodW x = true) ∧
    (∀ x, (ASTAdapter.scanIf ch prev condA thenA elseA).2.2 = Option.some x →
      goodW x = true) := by
  intro n
  induction n with
  | zero =>
    intro ch hsz hN
    cases ch with
    | nil => intro prev condA thenA elseA hc ht he; exact ⟨hc, ht, he⟩
    | cons hd rest => exact absurd hsz (by have := cstSize_pos hd; simp [cstsSize]; omega)
  | succ n ih =>
    intro ch hsz hN
    cases ch with
    | nil => intro prev condA thenA elseA hc ht he; exact ⟨hc, ht, he⟩
    | cons hd rest =>
      have hdN : cstSize hd ≤ N := by
        simp [cstsSize] at hN
        omega
      have hrest : cstsSize rest ≤ n := by
        have := cstSize_pos hd
        simp [cstsSize] at hsz
        omega
      have hrestN : cstsSize rest ≤ N := by
        simp [cstsSize] at hN
        omega
      intro prev condA thenA elseA hc ht he
      rw [scanIf_cons]
      split
      · next hbe =>
        refine ih rest hrest hrestN _ _ thenA elseA ?_ ht he
        intro x hx
        exact (bn_good hd x hbe hx).1
      · split
        · next hblk =>
          refine ih rest hrest hrestN _ condA _ _ hc ?_ ?_
          · intro x hx
            unfold ASTAdapter.keepFirst at hx
            cases hthen : thenA with
            | some y =>
              rw [hthen] at hx
              cases hx
              exact ht _ hthen
            | none =>
              rw [hthen] at hx
              exact ihA hd hdN x hx
          · intro x hx
            unfold ASTAdapter.pickElse at hx
            cases hthen : thenA with
            | none =>
              rw [hthen] at hx
              exact he x hx
            | some y =>
              rw [hthen] at hx
              by_cases hprev : prev = Option.some "ElseKeyword"
              · rw [if_pos hprev] at hx
                exact ihA hd hdN x hx
              · rw [if_neg hprev] at hx
                exact he x hx
        · exact ih rest hrest hrestN _ condA thenA elseA hc ht he

/-- The adapter invariant: every AST node the adapter produces is well-shaped
(size-bounded form). -/
theorem adapter_goodWAux : ∀ (n : Nat) (cst : CSTN), cstSize cst ≤ n →
    ∀ a, ASTAdapter.convertNode cst = Option.some a → goodW a = true := by
  intro n
  induction n with
  | zero =>
    intro cst hsz
    exact absurd hsz (by have := cstSize_pos cst; omega)
  | succ n ih =>
    intro cst hsz a h
    obtain ⟨name, tok, ch⟩ := cst
    have hch : cstsSize ch ≤ n := by
      simp [cstSize] at hsz
      omega
    have hB : ∀ m ch2, cstsSize ch2 ≤ m → cstsSize ch2 ≤ n →
        goodWS (ASTAdapter.convertStmts ch2) = true := by
      intro m
      induction m with
      | zero =>
        intro ch2 hm hn2
        cases ch2 with
        | nil => rfl
        | cons c2 rest => exact absurd hm (by have := cstSize_pos c2; simp [cstsSize]; omega)
      | succ m ihm =>
        intro ch2 hm hn2
        cases ch2 with
        | nil => rfl
        | cons c2 rest =>
          rw [convertStmts_cons]
          have hp := cstSize_pos c2
          have hsplit : cstSize c2 + cstsSize rest ≤ m + 1 := by
            simpa [cstsSize] using hm
          have hsplit2 : cstSize c2 + cstsSize rest ≤ n := by
            simpa [cstsSize] using hn2
          have h2 : goodWS (ASTAdapter.convertStmts rest) = true :=
            ihm rest (by omega) (by omega)
          cases hcv : ASTAdapter.convertNode c2 with
          | none => simpa [ASTAdapter.consIf] using h2
          | some x =>
            have hx := ih c2 (by omega) x hcv
            simp [ASTAdapter.consIf, goodWS, hx, h2]
    have hC : ∀ m ch2, cstsSize ch2 ≤ m → cstsSize ch2 ≤ n →
        goodWS (ASTAdapter.convertProgChildren ch2) = true := by
      intro m
      induction m with
      | zero =>
        intro ch2 hm hn2
        cases ch2 with
        | nil => rfl
        | cons c2 rest => exact absurd hm (by have := cstSize_pos c2; simp [cstsSize]; omega)
      | succ m ihm =>
        intro ch2 hm hn2
        cases ch2 with
        | nil => rfl
        | cons c2 rest =>
          rw [convertProgChildren_cons]
          have hp := cstSize_pos c2
          have hsplit : cstSize c2 + cstsSize rest ≤ m + 1 := by
            simpa [cstsSize] using hm
          have hsplit2 : cstSize c2 + cstsSize rest ≤ n := by
            simpa [cstsSize] using hn2
          have h2 : goodWS (ASTAdapter.convertProgChildren rest) = true :=
            ihm rest (by omega) (by omega)
          split
          · cases hcv : ASTAdapter.convertNode c2 with
            | none => simpa [ASTAdapter.consIf] using h2
            | some x =>
              have hx := ih c2 (by omega) x hcv
              simp [ASTAdapter.consIf, goodWS, hx, h2]
          · exact h2
    have hD : ∀ m ch2, cstsSize ch2 ≤ m → cstsSize ch2 ≤ n →
        goodWS (ASTAdapter.findSLConvert ch2) = true := by
      intro m
      induction m with
      | zero =>
        intro ch2 hm hn2
        cases ch2 with
        | nil => rfl
        | cons c2 rest => exact absurd hm (by have := cstSize_pos c2; simp [cstsSize]; omega)
      | succ m ihm =>
        intro ch2 hm hn2
        cases ch2 with
        | nil => rfl
        | cons c2 rest =>
          obtain ⟨cn, t2, cch⟩ := c2
          rw [findSLConvert_cons]
          have hsplit : (cstsSize cch + 1) + cstsSize rest ≤ m + 1 := by
            simpa [cstsSize, cstSize] using hm
          have hsplit2 : (cstsSize cch + 1) + cstsSize rest ≤ n := by
            simpa [cstsSize, cstSize] using hn2
          split
          · exact hB (cstsSize cch) cch le_rfl (by omega)
          · exact ihm rest (by omega) (by omega)
    rw [convertNode_eq] at h
    simp only [ASTAdapter.convertNodeBody] at h
    by_cases h1 : name = "Programs"
    · rw [if_pos h1] at h
      cases h
      exact pickProg_good _ _ _ (hB (cstsSize ch) ch le_rfl hch)
    · rw [if_neg h1] at h
      by_cases h2 : name = "Program"
      · rw [if_pos h2] at h
        cases h
        show goodWS (ASTAdapter.convertProgChildren ch) = true
        exact hC (cstsSize ch) ch le_rfl hch
      · rw [if_neg h2] at h
        by_cases h3 : name = "Block"
        · rw [if_pos h3] at h
          cases h
          show goodWS (ASTAdapter.findSLConvert ch) = true
          exact hD (cstsSize ch) ch le_rfl hch
        · rw [if_neg h3] at h
          by_cases h4 : name = "PrintStatement"
          · rw [if_pos h4] at h
            cases h
            exact printS_good _ _ _
              (getD_cw _ _ (fun x hx => scanPrint_leafAux (cstsSize ch) ch le_rfl x hx) rfl)
          · rw [if_neg h4] at h
            by_cases h5 : name = "VariableDeclaration"
            · rw [if_pos h5] at h
              cases h
              exact varDecl_good _ _ _
            · rw [if_neg h5] at h
              by_cases h6 : name = "AssignmentStatement"
              · rw [if_pos h6] at h
                cases h
                obtain ⟨hL, hR⟩ := scanAssign_leafAux (cstsSize ch) ch le_rfl _ _
                  Option.none Option.none (fun x hx => Option.noConfusion hx)
                  (fun x hx => Option.noConfusion hx)
                exact assignS_good _ _ _ _ (getD_cw _ _ hL rfl) (getD_cw _ _ hR rfl)
              · rw [if_neg h6] at h
                by_cases h7 : name = "WhileStatement"
                · rw [if_pos h7] at h
                  cases h
                  rfl
                · rw [if_neg h7] at h
                  by_cases h8 : name = "IfStatement"
                  · rw [if_pos h8] at h
                    cases h
                    obtain ⟨hc2, ht2, he2⟩ := scanIf_good n ih (cstsSize ch) ch le_rfl hch
                      Option.none Option.none Option.none Option.none
                      (fun x hx => Option.noConfusion hx)
                      (fun x hx => Option.noConfusion hx)
                      (fun x hx => Option.noConfusion hx)
                    refine ifS_good _ _ _ _ _ (getD_cwP _ _ hc2 rfl) (getD_gw _ _ ht2 rfl) ?_
                    cases hx : (ASTAdapter.scanIf ch Option.none Option.none Option.none
                        Option.none).2.2 with
                    | none => rfl
                    | some y =>
                      show goodW y = true
                      exact he2 y hx
                  · rw [if_neg h8] at h
                    by_cases h9 : name = "BooleanExpression"
                    · rw [if_pos h9] at h
                      cases h
                      obtain ⟨hL, hR⟩ := scanBool_leafAux (cstsSize ch) ch le_rfl
                        Option.none Option.none "==" (fun x hx => Option.noConfusion hx)
                        (fun x hx => Option.noConfusion hx)
                      refine (binExpr_good _ _ _ _ _ ?_ ?_).2
                      · exact getD_cw _ _ hL rfl
                      · exact getD_cw _ _ hR rfl
                    · rw [if_neg h9] at h
                      by_cases h10 : name = "Expression"
                      · rw [if_pos h10] at h
                        cases h
                        exact (leaf_cw _ (convertExpression_leaf _ _ _)).2
                      · rw [if_neg h10] at h
                        by_cases h11 : name = "StringExpression"
                        · rw [if_pos h11] at h
                          cases h
                          exact (leaf_cw _ (convertStringExpression_leaf _ _ _)).2
                        · rw [if_neg h11] at h
                          by_cases h12 : name = "StatementList"
                          · rw [if_pos h12] at h
                            cases h
                            show goodWS (ASTAdapter.convertStmts ch) = true
                            exact hB (cstsSize ch) ch le_rfl hch
                          · rw [if_neg h12] at h
                            by_cases h13 : name = "Identifier"
                            · rw [if_pos h13] at h
                              cases h
                              rfl
                            · rw [if_neg h13] at h
                              cases ch with
                              | nil => exact absurd h (by simp [ASTAdapter.convertHead])
                              | cons c2 rest =>
                                have h14 : ASTAdapter.convertNode c2 = Option.some a := h
                                refine ih c2 ?_ a h14
                                have := cstSize_pos c2
                                simp [cstsSize] at hch
                                omega

/-- The adapter invariant: every AST the adapter produces is well-shaped. -/
theorem adapter_goodW (cst : CSTN) (a : AN)
    (h : ASTAdapter.convertNode cst = Option.some a) : goodW a = true :=
  adapter_goodWAux (cstSize cst) cst le_rfl a h

/-- A contained while always drives `visit` onto the error path (size-bounded
form). -/
theorem visit_while_errorAux : ∀ (n : Nat),
    (∀ (a : AN) (s : GenSt), anSize a ≤ n → goodW a = true → containsWhile a = true →
      ∃ e, CodeGenerator.visit a s = Except.error e) ∧
    (∀ (cs : ANs) (s : GenSt), ansSize cs ≤ n → goodWS cs = true →
      containsWhileS cs = true → ∃ e, CodeGenerator.visitList cs s = Except.error e) := by
  intro n
  induction n with
  | zero =>
    constructor
    · intro a s hsz
      exact absurd hsz (by have := anSize_pos a; omega)
    · intro cs s hsz hg hw
      cases cs with
      | nil => exact absurd hw (by simp [containsWhileS])
      | cons h t =>
        exact absurd hsz (by have := anSize_pos h; simp [ansSize]; omega)
  | succ n ih =>
    obtain ⟨ihN, ihL⟩ := ih
    have hN : ∀ (a : AN) (s : GenSt), anSize a ≤ n + 1 → goodW a = true →
        containsWhile a = true → ∃ e, CodeGenerator.visit a s = Except.error e := by
      intro a s hsz hg hw
      cases a with
      | program l c cs =>
        cases cs with
        | nil => exact absurd hw (by simp [containsWhile, containsWhileS])
        | cons h t =>
          obtain ⟨e, he⟩ := ihL (.cons h t) s (by simp [anSize] at hsz; omega) hg hw
          exact ⟨e, by rw [visit_program_cons]; exact he⟩
      | blockN l c cs =>
        cases cs with
        | nil => exact absurd hw (by simp [containsWhile, containsWhileS])
        | cons h t =>
          obtain ⟨e, he⟩ := ihL (.cons h t) { s with currentScope := s.currentScope + 1 }
            (by simp [anSize] at hsz; omega) hg hw
          refine ⟨e, ?_⟩
          rw [visit_block_cons, he]
      | varDecl l c cs vt vn =>
        have hg2 : (!containsWhileS cs) = true := hg
        have hw2 : containsWhileS cs = true := hw
        rw [hw2] at hg2
        exact absurd hg2 (by decide)
      | assignS l c i e0 =>
        have hg2 : (!containsWhile i && !containsWhile e0) = true := hg
        have hw2 : (containsWhile i || containsWhile e0) = true := hw
        cases hi : containsWhile i <;> cases he0 : containsWhile e0 <;>
          rw [hi, he0] at hg2 hw2 <;> simp at hg2 hw2
      | printS l c e0 =>
        have hg2 : (!containsWhile e0) = true := hg
        have hw2 : containsWhile e0 = true := hw
        rw [hw2] at hg2
        exact absurd hg2 (by decide)
      | binExpr l c op x y =>
        have hg2 : (!containsWhile x && !containsWhile y) = true := hg
        have hw2 : (containsWhile x || containsWhile y) = true := hw
        cases hx : containsWhile x <;> cases hy : containsWhile y <;>
          rw [hx, hy] at hg2 hw2 <;> simp at hg2 hw2
      | identN l c nm =>
        have hw2 : (false : Bool) = true := hw
        exact absurd hw2 (by decide)
      | intLit l c v =>
        have hw2 : (false : Bool) = true := hw
        exact absurd hw2 (by decide)
      | strLit l c v =>
        have hw2 : (false : Bool) = true := hw
        exact absurd hw2 (by decide)
      | boolLit l c v =>
        have hw2 : (false : Bool) = true := hw
        exact absurd hw2 (by decide)
      | whileS l c cond body ch =>
        cases ch with
        | some lst =>
          have hg3 : (false : Bool) = true := hg
          exact absurd hg3 (by decide)
        | none => exact ⟨("Invalid WhileStatement node", s), rfl⟩
      | ifS l c cond tb eb =>
        have hg2 : (!containsWhile cond && goodW tb && goodWO eb) = true := hg
        have hw2 : (containsWhile cond || containsWhile tb || containsWhileO eb) = true := hw
        have hcond : containsWhile cond = false := by
          cases hc2 : containsWhile cond
          · rfl
          · rw [hc2] at hg2
            simp at hg2
        have hgtb : goodW tb = true := by
          rw [hcond] at hg2
          simp at hg2
          exact hg2.1
        have hsztb : anSize tb ≤ n := by
          have := anSize_pos cond
          simp [anSize] at hsz
          omega
        cases eb with
        | none =>
          have htb : containsWhile tb = true := by
            rw [hcond] at hw2
            simpa [containsWhileO] using hw2
          cases hcmp : CodeGenerator.generateComparisonCode cond s with
          | error e2 => exact ⟨e2, by rw [visit_if_none, hcmp]⟩
          | ok s1 =>
            obtain ⟨e2, he2⟩ := ihN tb (CodeGenerator.emitByte 0x05 (CodeGenerator.emitByte 0xD0
              (CodeGenerator.emitCpx 0x0000 (CodeGenerator.emitLdxMem 0x0000
                (CodeGenerator.emitSta 0x0000 s1))))) hsztb hgtb htb
            refine ⟨e2, ?_⟩
            rw [visit_if_none, hcmp]
            dsimp only
            rw [he2]
        | some els =>
          cases htb : containsWhile tb with
          | true =>
            cases hcmp : CodeGenerator.generateComparisonCode cond s with
            | error e2 => exact ⟨e2, by rw [visit_if_some, hcmp]⟩
            | ok s1 =>
              obtain ⟨e2, he2⟩ := ihN tb (CodeGenerator.emitByte 0x05 (CodeGenerator.emitByte 0xD0
                (CodeGenerator.emitCpx 0x0000 (CodeGenerator.emitLdxMem 0x0000
                  (CodeGenerator.emitSta 0x0000 s1))))) hsztb hgtb htb
              refine ⟨e2, ?_⟩
              rw [visit_if_some, hcmp]
              dsimp only
              rw [he2]
          | false =>
            have hels : containsWhile els = true := by
              rw [hcond, htb] at hw2
              simpa [containsWhileO] using hw2
            have hgels : goodW els = true := by
              rw [hcond] at hg2
              simp at hg2
              exact hg2.2
            have hszels : anSize els ≤ n := by
              have := anSize_pos cond
              have := anSize_pos tb
              simp [anSize, anoSize] at hsz
              omega
            cases hcmp : CodeGenerator.generateComparisonCode cond s with
            | error e2 => exact ⟨e2, by rw [visit_if_some, hcmp]⟩
            | ok s1 =>
              cases hv : CodeGenerator.visit tb (CodeGenerator.emitByte 0x05
                  (CodeGenerator.emitByte 0xD0 (CodeGenerator.emitCpx 0x0000
                    (CodeGenerator.emitLdxMem 0x0000 (CodeGenerator.emitSta 0x0000 s1))))) with
              | error e2 =>
                refine ⟨e2, ?_⟩
                rw [visit_if_some, hcmp]
                dsimp only
                rw [hv]
              | ok s2 =>
                obtain ⟨e2, he2⟩ := ihN els (CodeGenerator.emitByte 0x05
                  (CodeGenerator.emitByte 0xD0 (CodeGenerator.emitByte 0x01
                    (CodeGenerator.emitByte 0xA9 s2)))) hszels hgels hels
                refine ⟨e2, ?_⟩
                rw [visit_if_some, hcmp]
                dsimp only
                rw [hv]
                dsimp only
                rw [he2]
    refine ⟨hN, ?_⟩
    intro cs s hsz hg hw
    cases cs with
    | nil => exact absurd hw (by simp [containsWhileS])
    | cons h t =>
      have hg2 : (goodW h && goodWS t) = true := hg
      have hgh : goodW h = true := by
        simp at hg2
        exact hg2.1
      have hgt : goodWS t = true := by
        simp at hg2
        exact hg2.2
      cases hwh : containsWhile h with
      | true =>
        obtain ⟨e, he⟩ := hN h s (by simp [ansSize] at hsz; omega) hgh hwh
        exact ⟨e, by rw [visit_list_cons, he]⟩
      | false =>
        have hwt : containsWhileS t = true := by
          have hw2 : (containsWhile h || containsWhileS t) = true := hw
          rw [hwh] at hw2
          simpa using hw2
        cases hv : CodeGenerator.visit h s with
        | error e => exact ⟨e, by rw [visit_list_cons, hv]⟩
        | ok s2 =>
          obtain ⟨e, he⟩ := ihL t s2
            (by have := anSize_pos h; simp [ansSize] at hsz; omega) hgt hwt
          refine ⟨e, ?_⟩
          rw [visit_list_cons, hv]
          dsimp only
          rw [he]

/-- C2: the adapter stores a while statement's condition and body in the
`condition`/`body` fields and never creates a `children` array for it
(`children = none`); the generator's while handler demands `children[0]` and
`children[1]` and throws `Invalid WhileStatement node` on every such node; and
consequently `generate` on any adapter-produced AST that contains a while
statement takes the error path and returns the one-byte fallback image
`[0x00]` (a single BRK). -/
theorem C2_theorem :
    (∀ (tok : Option Tok) (ch : CSTNs), ∃ l c cond body,
      ASTAdapter.convertNode (.mk "WhileStatement" tok ch) =
        Option.some (.whileS l c cond body ANsOpt.none)) ∧
    (∀ (l c : Nat) (cond body : AN) (s : GenSt),
      CodeGenerator.visit (.whileS l c cond body ANsOpt.none) s =
        Except.error ("Invalid WhileStatement node", s)) ∧
    (∀ (cst : CSTN) (a : AN) (s : GenSt),
      ASTAdapter.convert (Option.some cst) = Option.some a →
      containsWhile a = true →
      (CodeGenerator.generate s a).1 = [0x00]) := by
  refine ⟨?_, fun l c cond body s => rfl, ?_⟩
  · intro tok ch
    exact ⟨_, _, _, _, rfl⟩
  · intro cst a s hconv hw
    have h2 : ASTAdapter.convertNode cst = Option.some a := hconv
    have hg : goodW a = true := adapter_goodW cst a h2
    obtain ⟨e, he⟩ := (visit_while_errorAux (anSize a)).1 a
      (CodeGenerator.emitLdaConst 0x00 (CodeGenerator.resetState s)) le_rfl hg hw
    obtain ⟨msg, s2⟩ := e
    show (CodeGenerator.generate s a).1 = [0x00]
    unfold CodeGenerator.generate CodeGenerator.genBody
    dsimp only
    rw [he]

/-- C2 (witness): the CST of `{ while (1 == 1) { } }$` lowers to `astWhile`,
whose while node has no children array, and code generation on it emits the
single fallback BRK byte. -/
theorem C2_witness :
    ASTAdapter.convert (Option.some cstWhileProg) = Option.some astWhile ∧
    (CodeGenerator.generate genInit astWhile).1 = [0x00] :=
  ⟨rfl, C2_theorem.2.2 cstWhileProg astWhile genInit rfl rfl⟩
